import Mathlib

/-!
Verification of the structural parsing and cross-format validation engine of
the postman-to-bruno migration tool.  The Python sources
(`src/validators/postman_parser.py`, `src/validators/bruno_parser.py`,
`src/validators/migration_validator.py`) are shallowly embedded below:
strings are `List Char`, directory trees are inductive values, JSON files
appear as their parse outcome (`none` models content that `json.load`
rejects, so the loading step is `Except`-valued exactly where the Python
code can raise), and every pure parsing routine is a total Lean function
mirroring the corresponding Python method line by line.  Unobservable
record fields (`id`, `_postman_id`, the `variables` name lists of
collection, environment and global nodes — only `variable_count` is ever
compared — and the `method`/`type` entries of a parsed .bru file) are
omitted from the node structures: no validation record ever reads them.  Character case
mapping follows Python `str.lower` on the ASCII range.
-/

/-- Strings are modelled as lists of characters. -/
abbrev Str := List Char

/-- Shorthand turning a Lean string literal into the `List Char` model. -/
def S (s : String) : Str := s.data

/-- The `{` character (written via its code point). -/
def lbrace : Char := Char.ofNat 123

/-- The `}` character (written via its code point). -/
def rbrace : Char := Char.ofNat 125

/-- The `'` character (written via its code point). -/
def squote : Char := Char.ofNat 39

/-- Python `\s` on the ASCII range: space, tab, newline, carriage return,
vertical tab, form feed. -/
def isPySpace (c : Char) : Bool :=
  c = ' ' || c = '\t' || c = '\n' || c = '\r' || c = Char.ofNat 11 || c = Char.ofNat 12

/-- Python `str.strip()`: drop whitespace from both ends. -/
def pyStrip (s : Str) : Str :=
  ((s.dropWhile isPySpace).reverse.dropWhile isPySpace).reverse

/-- Python `str.lower` on one character (ASCII case mapping). -/
def pyLowerChar (c : Char) : Char :=
  if 65 ≤ c.toNat ∧ c.toNat ≤ 90 then Char.ofNat (c.toNat + 32) else c

/-- Python `str.lower` (ASCII case mapping). -/
def pyLower (s : Str) : Str := s.map pyLowerChar

/-- Python `str.endswith` / the effect of a `*.ext` glob pattern on a name. -/
def endsWith (suf s : Str) : Bool := suf.isSuffixOf s

/-- `pathlib.PurePath.suffix`: the extension of the last path component.
Python computes `i = name.rfind('.')` and returns `name[i:]` when
`0 < i < len(name) - 1`, else the empty string. -/
def pathSuffix (n : Str) : Str :=
  let k := (n.reverse.takeWhile (fun c => c ≠ '.')).length
  if k < n.length ∧ 0 < n.length - 1 - k ∧ 1 ≤ k then n.drop (n.length - 1 - k) else []

/-- `pathlib.PurePath.stem`: the last component without its suffix. -/
def pathStem (n : Str) : Str :=
  let k := (n.reverse.takeWhile (fun c => c ≠ '.')).length
  if k < n.length ∧ 0 < n.length - 1 - k ∧ 1 ≤ k then n.take (n.length - 1 - k) else n

/-- `MigrationValidator.normalize_name`:
`name.lower().replace(' ', '').replace('_', '').replace('-', '')`
(replacing a single character by the empty string deletes every
occurrence, i.e. filters it out). -/
def normalize_name (s : Str) : Str :=
  (((pyLower s).filter (fun c => c ≠ ' ')).filter (fun c => c ≠ '_')).filter
    (fun c => c ≠ '-')

/-- The claim's reading of `normalize_name`: lower-case, then remove exactly
the characters space, underscore and hyphen (one combined filter). -/
def normalizeSpec (s : Str) : Str :=
  (pyLower s).filter (fun c => ¬ (c = ' ' ∨ c = '_' ∨ c = '-'))

/-! ## Postman parser (`src/validators/postman_parser.py`)

A collection JSON file's `item` entries.  Python inspects only key
presence: `'request' in item` (modelled by a Bool), `'item' in item`
(modelled by `Option (List PmItem)`), and `item.get('name')`. -/

/-- One entry of a Postman `item` array: declared name (if any), whether a
`request` key is present, and the nested `item` array (if any). -/
inductive PmItem : Type where
  | mk : Option Str → Bool → Option (List PmItem) → PmItem

/-- Declared `name` of an item. -/
def PmItem.name? : PmItem → Option Str
  | .mk n _ _ => n

/-- Whether the item carries a `request` object. -/
def PmItem.hasRequest : PmItem → Bool
  | .mk _ r _ => r

/-- The nested `item` array, when present. -/
def PmItem.subitems? : PmItem → Option (List PmItem)
  | .mk _ _ s => s

namespace Postman

/-- `PostmanParser.count_requests`: an item with a `request` key counts 1;
otherwise an item with an `item` array is recursed into. -/
def count_requests : List PmItem → Nat
  | [] => 0
  | PmItem.mk _ true _ :: rest => 1 + count_requests rest
  | PmItem.mk _ false (some sub) :: rest => count_requests sub + count_requests rest
  | PmItem.mk _ false none :: rest => count_requests rest

/-- `PostmanParser.count_folders`: an item with an `item` array and no
`request` key counts 1 and is recursed into. -/
def count_folders : List PmItem → Nat
  | [] => 0
  | PmItem.mk _ false (some sub) :: rest => 1 + count_folders sub + count_folders rest
  | PmItem.mk _ false none :: rest => count_folders rest
  | PmItem.mk _ true _ :: rest => count_folders rest

/-- A folder node as produced by `PostmanParser.get_folder_structure`
(the unused `id` key is omitted). -/
structure FolderNode where
  name : Str
  path : Str
  request_count : Nat
  folder_count : Nat
deriving DecidableEq

/-- `PostmanParser.get_folder_structure`: flatten the folder tree in
pre-order; each folder node carries the recursive request and folder
counts of its subtree. -/
def get_folder_structure : List PmItem → Str → List FolderNode
  | [], _ => []
  | PmItem.mk n false (some sub) :: rest, parent_path =>
      let folder_name := n.getD (S "Unnamed")
      let folder_path := if parent_path = [] then folder_name
        else parent_path ++ S "/" ++ folder_name
      { name := folder_name, path := folder_path,
        request_count := count_requests sub,
        folder_count := count_folders sub } ::
      (get_folder_structure sub folder_path ++ get_folder_structure rest parent_path)
  | PmItem.mk _ false none :: rest, parent_path => get_folder_structure rest parent_path
  | PmItem.mk _ true _ :: rest, parent_path => get_folder_structure rest parent_path

/-- Parse outcome of one collection JSON file: the `info.name` value (when
the `info` object and its `name` key exist) and the `item` array (when
present). -/
structure CollectionData where
  info_name : Option Str
  items : Option (List PmItem)

/-- A collection JSON file on disk: its filename and its parse outcome
(`none` models content rejected by `json.load`). -/
structure ColFile where
  filename : Str
  parsed : Option CollectionData

/-- A collection node as produced by `PostmanParser.get_collection_structure`
(the unused `id` key is omitted). -/
structure ColNode where
  name : Str
  path : Str
  request_count : Nat
  folder_count : Nat
  folders : List FolderNode
deriving DecidableEq

/-- Parse outcome of one environment JSON file: the `name` value and the
`values` array, each entry reduced to its `key` field (if present). -/
structure EnvData where
  name : Option Str
  values : Option (List (Option Str))
deriving DecidableEq

/-- An environment JSON file on disk. -/
structure EnvFile where
  filename : Str
  parsed : Option EnvData
deriving DecidableEq

/-- Parse outcome of `global_variables.json`. -/
structure GlobalData where
  values : Option (List (Option Str))
deriving DecidableEq

/-- The `global_variables.json` file on disk (when it exists). -/
structure GlobalFile where
  parsed : Option GlobalData
deriving DecidableEq

/-- A Postman workspace directory.  `none` in `collectionsDir` /
`environmentsDir` / `globalFile` models the directory or file not
existing. -/
structure Workspace where
  path : Str
  collectionsDir : Option (List ColFile)
  environmentsDir : Option (List EnvFile)
  globalFile : Option GlobalFile

/-- `PostmanParser.parse_collection`: `json.load` raises on malformed
content; modelled as `Except`. -/
def parse_collection (f : ColFile) : Except Str CollectionData :=
  match f.parsed with
  | some d => .ok d
  | none => .error (S "JSONDecodeError")

/-- Build the collection node for one parsed collection file. -/
def collection_node (colPath : Str) (f : ColFile) (d : CollectionData) : ColNode :=
  let items := d.items.getD []
  { name := d.info_name.getD (pathStem f.filename),
    path := colPath ++ S "/" ++ f.filename,
    request_count := count_requests items,
    folder_count := count_folders items,
    folders := get_folder_structure items [] }

/-- Loop body of `PostmanParser.get_collection_structure` over the files
matched by `glob('*.json')`. -/
def collection_structure_loop (colPath : Str) : List ColFile → Except Str (List ColNode)
  | [] => .ok []
  | f :: fs => do
      let d ← parse_collection f
      let rest ← collection_structure_loop colPath fs
      .ok (collection_node colPath f d :: rest)

/-- `PostmanParser.get_collection_structure`: empty when `collections/`
does not exist, otherwise one node per `*.json` file. -/
def get_collection_structure (ws : Workspace) : Except Str (List ColNode) :=
  match ws.collectionsDir with
  | none => .ok []
  | some files =>
      collection_structure_loop (ws.path ++ S "/collections")
        (files.filter (fun f => endsWith (S ".json") f.filename))

/-- An environment node (both parsers produce this shape). -/
structure EnvNode where
  name : Str
  path : Str
  variable_count : Nat
deriving DecidableEq

/-- Build the node for one parsed environment file. -/
def env_node (envPath : Str) (f : EnvFile) (d : EnvData) : EnvNode :=
  let values := d.values.getD []
  { name := d.name.getD (pathStem f.filename),
    path := envPath ++ S "/" ++ f.filename,
    variable_count := values.length }

/-- Loop body of `PostmanParser.get_environment_variables`. -/
def environment_loop (envPath : Str) : List EnvFile → Except Str (List EnvNode)
  | [] => .ok []
  | f :: fs => do
      let d ← match f.parsed with
        | some d => Except.ok d
        | none => Except.error (S "JSONDecodeError")
      let rest ← environment_loop envPath fs
      .ok (env_node envPath f d :: rest)

/-- `PostmanParser.get_environment_variables`: empty when `environments/`
does not exist, otherwise one node per `*.json` file. -/
def get_environment_variables (ws : Workspace) : Except Str (List EnvNode) :=
  match ws.environmentsDir with
  | none => .ok []
  | some files =>
      environment_loop (ws.path ++ S "/environments")
        (files.filter (fun f => endsWith (S ".json") f.filename))

/-- The global-variables node produced by
`PostmanParser.get_global_variables`. -/
structure GlobalNode where
  name : Str
  path : Str
  variable_count : Nat
deriving DecidableEq

/-- `PostmanParser.get_global_variables`: `none` when the file does not
exist; raises (models `json.load`) on malformed content. -/
def get_global_variables (ws : Workspace) : Except Str (Option GlobalNode) :=
  match ws.globalFile with
  | none => .ok none
  | some gf =>
      match gf.parsed with
      | none => .error (S "JSONDecodeError")
      | some d =>
          let values := d.values.getD []
          .ok (some { name := S "Global Variables",
                      path := ws.path ++ S "/global_variables.json",
                      variable_count := values.length })

/-- The parts of `PostmanParser.get_workspace_summary` that the validator
reads (aggregate counts that no validation record uses are omitted). -/
structure Summary where
  workspace_path : Str
  collections : List ColNode
  environments : List EnvNode
  global_variables : Option GlobalNode
deriving DecidableEq

/-- `PostmanParser.get_workspace_summary`. -/
def get_workspace_summary (ws : Workspace) : Except Str Summary := do
  let cols ← get_collection_structure ws
  let envs ← get_environment_variables ws
  let gv ← get_global_variables ws
  .ok { workspace_path := ws.path, collections := cols,
        environments := envs, global_variables := gv }

end Postman

/-! ## Bruno parser (`src/validators/bruno_parser.py`) -/

/-- A file inside a Bruno workspace: its name and raw text content. -/
structure BruFile where
  fname : Str
  content : Str
deriving DecidableEq

/-- A directory inside a Bruno workspace: its basename, the files it
directly contains and its subdirectories. -/
inductive BruDir : Type where
  | mk : Str → List BruFile → List BruDir → BruDir

/-- Basename of the directory. -/
def BruDir.dname : BruDir → Str
  | .mk n _ _ => n

/-- Files directly inside the directory. -/
def BruDir.files : BruDir → List BruFile
  | .mk _ fs _ => fs

/-- Subdirectories of the directory. -/
def BruDir.subdirs : BruDir → List BruDir
  | .mk _ _ ds => ds

namespace Bruno

/-- The regex `meta\s*\{([^}]*)\}` (DOTALL) tried at the head of the
string: literal `meta`, optional whitespace, an opening brace, then the
capture runs to the first closing brace (which must exist). -/
def metaBodyAt (s : Str) : Option Str :=
  if (S "meta").isPrefixOf s then
    let afterWs := (s.drop 4).dropWhile isPySpace
    if afterWs.head? = some lbrace then
      if (afterWs.drop 1).any (fun c => c = rbrace) then
        some ((afterWs.drop 1).takeWhile (fun c => c ≠ rbrace))
      else none
    else none
  else none

/-- `re.search` for the meta-block pattern: try every start position,
leftmost match wins. -/
def findMetaBody : Str → Option Str
  | [] => none
  | c :: rest =>
      match metaBodyAt (c :: rest) with
      | some b => some b
      | none => findMetaBody rest

/-- The `\s*(.+)` tail of the regex `name:\s*(.+)` applied after the key:
skip whitespace greedily, capture the rest of the line (at least one
character, `.` not matching newline), then `.strip()` the capture.
When everything after the key is whitespace the greedy `\s*` backtracks
into it, so a capture (stripping to the empty string) still exists as
long as some whitespace character other than a newline is available. -/
def captureAfterKey (rest : Str) : Option Str :=
  let tail0 := rest.dropWhile isPySpace
  if tail0 ≠ [] then some (pyStrip (tail0.takeWhile (fun c => c ≠ '\n')))
  else if (rest.takeWhile isPySpace).any (fun c => c ≠ '\n') then some []
  else none

/-- `re.search(key + r':\s*(.+)', s)` for a literal key already containing
the colon: try each occurrence of the key from the left, with the
`\s*(.+)` tail; the first position where the whole pattern matches
wins. -/
def searchKey (key : Str) : Str → Option Str
  | [] => none
  | c :: rest =>
      if key.isPrefixOf (c :: rest) then
        match captureAfterKey ((c :: rest).drop key.length) with
        | some v => some v
        | none => searchKey key rest
      else searchKey key rest

/-- The lowercase HTTP method literals recognised as request blocks. -/
def httpMethods : List Str :=
  [S "get", S "post", S "put", S "patch", S "delete", S "head", S "options"]

/-- The `\s+\{` tail of the method regex: at least one whitespace
character followed directly by an opening brace. -/
def wsPlusBrace : Str → Bool
  | [] => false
  | c :: rest => isPySpace c && ((rest.dropWhile isPySpace).head? = some lbrace)

/-- Whether `m` followed by `\s+\{` matches at the head of `s`. -/
def methodHere (m s : Str) : Bool :=
  m.isPrefixOf s && wsPlusBrace (s.drop m.length)

/-- `re.search(rf'^{method}\s+\{...', content, re.MULTILINE)`: scan every
position, matching only at the start of a line (position 0 or just after
a newline). -/
def methodScan (m : Str) : Str → Bool → Bool
  | [], _ => false
  | c :: rest, atStart =>
      (atStart && methodHere m (c :: rest)) || methodScan m rest (c = '\n')

/-- Whether the content declares an HTTP-method block for `m`. -/
def hasMethodAt (m content : Str) : Bool := methodScan m content true

/-- Whether the content declares any HTTP-method block (the `is_request`
test of `BrunoParser.parse_bru_file`). -/
def hasMethodBlock (content : Str) : Bool :=
  httpMethods.any (fun m => hasMethodAt m content)

/-- Result of `BrunoParser.parse_bru_file` (the unused `type`, `method`
and `variables` entries are omitted). -/
structure BruMeta where
  name : Str
  is_request : Bool
deriving DecidableEq

/-- `BrunoParser.parse_bru_file`: the name is the `name:` value of the
first `meta { ... }` block, defaulting to the file stem; `is_request`
is the HTTP-method-block test. -/
def parse_bru_file (filename content : Str) : BruMeta :=
  { name := (match findMetaBody content with
             | some body => searchKey (S "name:") body
             | none => none).getD (pathStem filename),
    is_request := hasMethodBlock content }

/-- `BrunoParser.is_collection_root`: the directory directly contains a
`collection.bru` file. -/
def is_collection_root (d : BruDir) : Bool :=
  d.files.any (fun f => f.fname = S "collection.bru")

/-- `BrunoParser.is_folder`: the directory directly contains a
`folder.bru` file. -/
def is_folder (d : BruDir) : Bool :=
  d.files.any (fun f => f.fname = S "folder.bru")

/-- Marker filenames skipped when counting requests. -/
def is_marker_name (n : Str) : Bool :=
  n = S "collection.bru" || n = S "folder.bru"

/-- `BrunoParser.count_requests_in_directory` (non-recursive): files with
suffix `.bru`, other than the two markers, whose parsed content is a
request.  (The `directory.exists()` guard concerns only paths handed in
from outside; a directory value here always exists.) -/
def count_requests_in_directory : List BruFile → Nat
  | [] => 0
  | f :: fs =>
      (if pathSuffix f.fname = S ".bru" ∧ is_marker_name f.fname = false ∧
          (parse_bru_file f.fname f.content).is_request = true
       then 1 else 0) + count_requests_in_directory fs

/-- `BrunoParser.count_folders_in_directory` (non-recursive):
subdirectories carrying a `folder.bru` marker. -/
def count_folders_in_directory (d : BruDir) : Nat :=
  (d.subdirs.filter (fun c => is_folder c)).length

mutual

/-- `BrunoParser.count_all_requests`: requests in the directory and,
recursively, in every subdirectory (folder marker or not). -/
def count_all_requests : BruDir → Nat
  | .mk _ fs ds => count_requests_in_directory fs + count_all_requests_list ds

/-- Sum of `count_all_requests` over a list of directories. -/
def count_all_requests_list : List BruDir → Nat
  | [] => 0
  | d :: ds => count_all_requests d + count_all_requests_list ds

end

mutual

/-- `BrunoParser.count_all_folders`: marker-bearing folders in the
directory and, recursively, in every subdirectory. -/
def count_all_folders : BruDir → Nat
  | .mk _ _ ds => (ds.filter (fun c => is_folder c)).length + count_all_folders_list ds

/-- Sum of `count_all_folders` over a list of directories. -/
def count_all_folders_list : List BruDir → Nat
  | [] => 0
  | d :: ds => count_all_folders d + count_all_folders_list ds

end

/-- A folder node as produced by `BrunoParser.get_folder_structure`:
`request_count` is the recursive total, `folder_count` the direct
subfolder count, `direct_request_count` the non-recursive request
count. -/
structure FolderNode where
  name : Str
  path : Str
  request_count : Nat
  folder_count : Nat
  direct_request_count : Nat
deriving DecidableEq

mutual

/-- `BrunoParser.get_folder_structure` on the subdirectories of
`directory`, whose filesystem path is `fsPath`.  The `parent_path`
argument is threaded exactly as in the Python code (it feeds only the
recursive call; the stored `path` is the filesystem path). -/
def get_folder_structure : BruDir → Str → Str → List FolderNode
  | .mk _ _ ds, fsPath, parent_path => folder_structure_list ds fsPath parent_path

/-- Loop body of `get_folder_structure` over the subdirectory list. -/
def folder_structure_list : List BruDir → Str → Str → List FolderNode
  | [], _, _ => []
  | d :: ds, fsPath, parent_path =>
      (match d with
       | .mk dn dfs dds =>
        if is_folder d then
          let fd := parse_bru_file (S "folder.bru")
            (((dfs.find? (fun f => f.fname = S "folder.bru")).map
              (fun f => f.content)).getD [])
          let itemPath := fsPath ++ S "/" ++ dn
          let folder_path := if parent_path = [] then dn
            else parent_path ++ S "/" ++ dn
          let request_count := count_requests_in_directory dfs
          let total_request_count :=
            request_count + count_all_requests_list (dds.filter (fun c => is_folder c))
          { name := fd.name, path := itemPath,
            request_count := total_request_count,
            folder_count := count_folders_in_directory d,
            direct_request_count := request_count } ::
          folder_structure_list dds itemPath folder_path
        else []) ++ folder_structure_list ds fsPath parent_path

end

/-- A collection node as produced by `BrunoParser.get_collection_structure`
(its unused `variables` list is omitted). -/
structure ColNode where
  name : Str
  path : Str
  request_count : Nat
  folder_count : Nat
  folders : List FolderNode
deriving DecidableEq

/-- A Bruno workspace directory.  `none` models a missing
`collections/` or `environments/` directory. -/
structure Workspace where
  path : Str
  collectionsDir : Option (List BruDir)
  environmentsDir : Option (List BruFile)

/-- Loop body of `BrunoParser.get_collection_structure`: directories
carrying a `collection.bru` marker become collection nodes; the node
name is the directory basename (the meta name inside `collection.bru`
is not consulted). -/
def collection_structure_list : List BruDir → Str → List ColNode
  | [], _ => []
  | d :: ds, colPath =>
      (if is_collection_root d then
        [{ name := d.dname,
           path := colPath ++ S "/" ++ d.dname,
           request_count := count_all_requests d,
           folder_count := count_all_folders d,
           folders := get_folder_structure d (colPath ++ S "/" ++ d.dname) [] }]
      else []) ++ collection_structure_list ds colPath

/-- `BrunoParser.get_collection_structure`: empty when `collections/`
does not exist. -/
def get_collection_structure (ws : Workspace) : List ColNode :=
  match ws.collectionsDir with
  | none => []
  | some ds => collection_structure_list ds (ws.path ++ S "/collections")

/-- Python `str.split('\n')`. -/
def splitLinesAux (cur : Str) : Str → List Str
  | [] => [cur.reverse]
  | c :: rest =>
      if c = '\n' then cur.reverse :: splitLinesAux [] rest
      else splitLinesAux (c :: cur) rest

/-- Python `content.split('\n')`. -/
def splitLines (s : Str) : List Str := splitLinesAux [] s

/-- Python `s.replace(pat, '')` for a non-empty pattern: delete every
(leftmost-first) occurrence. -/
def pyReplaceDel (pat : Str) : Str → Str
  | [] => []
  | c :: rest =>
      if h : pat.isPrefixOf (c :: rest) ∧ 0 < pat.length then
        pyReplaceDel pat (rest.drop (pat.length - 1))
      else c :: pyReplaceDel pat rest
termination_by s => s.length
decreasing_by
  · simp only [List.length_drop, List.length_cons]
    omega
  · simp

/-- The variable-collecting loop of `BrunoParser.parse_environment_file`:
strip each line; a line starting `variables:` opens the section; inside
the section a line starting `- name:` contributes
`line.replace('- name:', '').strip()`. -/
def env_vars_loop : List Str → Bool → List Str
  | [], _ => []
  | line :: rest, inVars =>
      let l := pyStrip line
      if (S "variables:").isPrefixOf l then env_vars_loop rest true
      else if inVars && (S "- name:").isPrefixOf l then
        pyStrip (pyReplaceDel (S "- name:") l) :: env_vars_loop rest inVars
      else env_vars_loop rest inVars

/-- The name-extracting loop of `BrunoParser.parse_environment_file`:
first unstripped line starting `name:` wins; default is the file stem. -/
def env_name_loop (stem : Str) : List Str → Str
  | [] => stem
  | line :: rest =>
      if (S "name:").isPrefixOf line then pyStrip (pyReplaceDel (S "name:") line)
      else env_name_loop stem rest

/-- `BrunoParser.parse_environment_file` (its `variables` name list is
omitted; only the count is consumed). -/
def parse_environment_file (envPath : Str) (f : BruFile) : Postman.EnvNode :=
  { name := env_name_loop (pathStem f.fname) (splitLines f.content),
    path := envPath ++ S "/" ++ f.fname,
    variable_count := (env_vars_loop (splitLines f.content) false).length }

/-- `BrunoParser.get_environment_variables`: empty when `environments/`
does not exist, otherwise one node per `*.yml` file. -/
def get_environment_variables (ws : Workspace) : List Postman.EnvNode :=
  match ws.environmentsDir with
  | none => []
  | some files =>
      (files.filter (fun f => endsWith (S ".yml") f.fname)).map
        (parse_environment_file (ws.path ++ S "/environments"))

/-- The parts of `BrunoParser.get_workspace_summary` that the validator
reads. -/
structure Summary where
  workspace_path : Str
  collections : List ColNode
  environments : List Postman.EnvNode
deriving DecidableEq

/-- `BrunoParser.get_workspace_summary`. -/
def get_workspace_summary (ws : Workspace) : Summary :=
  { workspace_path := ws.path,
    collections := get_collection_structure ws,
    environments := get_environment_variables ws }

end Bruno

/-! ## Migration validator (`src/validators/migration_validator.py`) -/

namespace Validator

/-- One validation record (the dict appended to `results`). -/
structure VRecord where
  postman_item_path : Str
  bruno_path : Str
  rtype : Str
  postman_count : Nat
  bruno_count : Nat
  validation_status : Str
  description : Str
deriving DecidableEq

/-- Wrap a name in single quotes, as the Python f-strings do. -/
def quoted (n : Str) : Str := squote :: n ++ [squote]

/-- `MigrationValidator.find_matching_bruno_collection`: first Bruno
collection whose normalized name equals the Postman collection's. -/
def find_matching_bruno_collection (pm : Postman.ColNode) :
    List Bruno.ColNode → Option Bruno.ColNode
  | [] => none
  | b :: bs =>
      if normalize_name pm.name = normalize_name b.name then some b
      else find_matching_bruno_collection pm bs

/-- `MigrationValidator.find_matching_bruno_folder`: first Bruno folder
whose normalized name equals the Postman folder's. -/
def find_matching_bruno_folder (pm : Postman.FolderNode) :
    List Bruno.FolderNode → Option Bruno.FolderNode
  | [] => none
  | b :: bs =>
      if normalize_name pm.name = normalize_name b.name then some b
      else find_matching_bruno_folder pm bs

/-- `MigrationValidator.validate_folders`: one record per Postman folder
of the collection, matched against the Bruno collection's flattened
folder list. -/
def validate_folders_loop (bruno_folders : List Bruno.FolderNode) :
    List Postman.FolderNode → List VRecord
  | [] => []
  | pf :: pfs =>
      (match find_matching_bruno_folder pf bruno_folders with
       | some bf =>
          { postman_item_path := pf.path, bruno_path := bf.path,
            rtype := S "folder",
            postman_count := pf.request_count, bruno_count := bf.request_count,
            validation_status :=
              if pf.request_count = bf.request_count then S "Pass" else S "Fail",
            description := S "Request count in folder " ++ quoted pf.name }
       | none =>
          { postman_item_path := pf.path, bruno_path := S "NOT FOUND",
            rtype := S "folder",
            postman_count := pf.request_count, bruno_count := 0,
            validation_status := S "Fail",
            description := S "Folder " ++ quoted pf.name ++
              S " not found in Bruno" }) :: validate_folders_loop bruno_folders pfs

/-- `MigrationValidator.validate_folders`. -/
def validate_folders (pm : Postman.ColNode) (br : Bruno.ColNode) : List VRecord :=
  validate_folders_loop br.folders pm.folders

/-- The per-collection loop of `MigrationValidator.validate_collections`. -/
def validate_collections_loop (bruno_collections : List Bruno.ColNode) :
    List Postman.ColNode → List VRecord
  | [] => []
  | pc :: pcs =>
      (match find_matching_bruno_collection pc bruno_collections with
       | some bc =>
          { postman_item_path := pc.path, bruno_path := bc.path,
            rtype := S "collection",
            postman_count := pc.request_count, bruno_count := bc.request_count,
            validation_status :=
              if pc.request_count = bc.request_count then S "Pass" else S "Fail",
            description := S "Request count in collection " ++ quoted pc.name } ::
          { postman_item_path := pc.path, bruno_path := bc.path,
            rtype := S "collection",
            postman_count := pc.folder_count, bruno_count := bc.folder_count,
            validation_status :=
              if pc.folder_count = bc.folder_count then S "Pass" else S "Fail",
            description := S "Folder count in collection " ++ quoted pc.name } ::
          validate_folders pc bc
       | none =>
          [{ postman_item_path := pc.path, bruno_path := S "NOT FOUND",
             rtype := S "collection",
             postman_count := pc.request_count, bruno_count := 0,
             validation_status := S "Fail",
             description := S "Collection " ++ quoted pc.name ++
               S " not found in Bruno" }]) ++
      validate_collections_loop bruno_collections pcs

/-- `MigrationValidator.validate_collections` on the two workspace
summaries: the workspace-level collection-count record followed by the
per-collection records. -/
def validate_collections (pm : Postman.Summary) (br : Bruno.Summary) :
    List VRecord :=
  { postman_item_path := pm.workspace_path ++ S "/collections",
    bruno_path := br.workspace_path ++ S "/collections",
    rtype := S "workspace",
    postman_count := pm.collections.length,
    bruno_count := br.collections.length,
    validation_status :=
      if pm.collections.length = br.collections.length then S "Pass" else S "Fail",
    description := S "Collection count in workspace" } ::
  validate_collections_loop br.collections pm.collections

/-- The per-environment matching loop of
`MigrationValidator.validate_environments` (inline first-match search). -/
def find_matching_bruno_env (pm : Postman.EnvNode) :
    List Postman.EnvNode → Option Postman.EnvNode
  | [] => none
  | b :: bs =>
      if normalize_name b.name = normalize_name pm.name then some b
      else find_matching_bruno_env pm bs

/-- Per-environment records of `MigrationValidator.validate_environments`. -/
def validate_environments_loop (bruno_envs : List Postman.EnvNode) :
    List Postman.EnvNode → List VRecord
  | [] => []
  | pe :: pes =>
      (match find_matching_bruno_env pe bruno_envs with
       | some be =>
          { postman_item_path := pe.path, bruno_path := be.path,
            rtype := S "environment",
            postman_count := pe.variable_count, bruno_count := be.variable_count,
            validation_status :=
              if pe.variable_count = be.variable_count then S "Pass" else S "Fail",
            description := S "Variable count in environment " ++ quoted pe.name }
       | none =>
          { postman_item_path := pe.path, bruno_path := S "NOT FOUND",
            rtype := S "environment",
            postman_count := pe.variable_count, bruno_count := 0,
            validation_status := S "Fail",
            description := S "Environment " ++ quoted pe.name ++
              S " not found in Bruno" }) :: validate_environments_loop bruno_envs pes

/-- The pure core of `MigrationValidator.validate_environments` given the
already-fetched environment lists and global-variables node. -/
def validate_environments_core (pmPath bruPath : Str)
    (pm_envs bruno_envs : List Postman.EnvNode)
    (global_vars : Option Postman.GlobalNode) : List VRecord :=
  ({ postman_item_path := pmPath ++ S "/environments",
     bruno_path := bruPath ++ S "/environments",
     rtype := S "environment",
     postman_count := pm_envs.length,
     bruno_count := bruno_envs.length,
     validation_status :=
       if pm_envs.length = bruno_envs.length then S "Pass" else S "Fail",
     description := S "Environment count" } ::
   validate_environments_loop bruno_envs pm_envs) ++
  (match global_vars with
   | some gv =>
      [{ postman_item_path := gv.path, bruno_path := S "N/A",
         rtype := S "global_variables",
         postman_count := gv.variable_count, bruno_count := 0,
         validation_status := S "Info",
         description := S "Global variables (Bruno does not have direct equivalent)" }]
   | none => [])

/-- `MigrationValidator.validate_environments`: fetch both environment
lists and the global-variables node (the Postman side can raise), then
build the records. -/
def validate_environments (pmWs : Postman.Workspace) (brWs : Bruno.Workspace) :
    Except Str (List VRecord) := do
  let pm_envs ← Postman.get_environment_variables pmWs
  let bruno_envs := Bruno.get_environment_variables brWs
  let gv ← Postman.get_global_variables pmWs
  .ok (validate_environments_core pmWs.path brWs.path pm_envs bruno_envs gv)

/-- `MigrationValidator.generate_validation_report`: collection records
followed by environment records.  Raises exactly where `json.load`
does. -/
def generate_validation_report (pmWs : Postman.Workspace)
    (brWs : Bruno.Workspace) : Except Str (List VRecord) := do
  let pmSum ← Postman.get_workspace_summary pmWs
  let brSum := Bruno.get_workspace_summary brWs
  let collection_results := validate_collections pmSum brSum
  let env_results := validate_environments_core pmSum.workspace_path
    brSum.workspace_path pmSum.environments brSum.environments
    pmSum.global_variables
  .ok (collection_results ++ env_results)

end Validator

/-! ## Claim-side definitions

Definitions in this section follow the wording of the specification's
claims (not the Python code); the theorems below compare them with the
code-derived functions above. -/

namespace Spec

/-- The claims' status rule: `Pass` iff the two counts are exactly equal. -/
def eqStatus (a b : Nat) : Str := if a = b then S "Pass" else S "Fail"

/-- Claim C3's description of the records emitted for one source
collection: if some target collection has an equal normalized name (first
one in traversal order), exactly two records — request-count equality and
folder-count equality — each `Pass` iff the counts are exactly equal,
followed by the pair's folder records; otherwise exactly one `Fail`
record with `bruno_path` `"NOT FOUND"` and `bruno_count` 0 and no
folder-level records. -/
def collection_records (bcols : List Bruno.ColNode) (c : Postman.ColNode) :
    List Validator.VRecord :=
  match bcols.find? (fun b => normalize_name c.name == normalize_name b.name) with
  | some b =>
      { postman_item_path := c.path, bruno_path := b.path,
        rtype := S "collection",
        postman_count := c.request_count, bruno_count := b.request_count,
        validation_status := eqStatus c.request_count b.request_count,
        description := S "Request count in collection " ++ Validator.quoted c.name } ::
      { postman_item_path := c.path, bruno_path := b.path,
        rtype := S "collection",
        postman_count := c.folder_count, bruno_count := b.folder_count,
        validation_status := eqStatus c.folder_count b.folder_count,
        description := S "Folder count in collection " ++ Validator.quoted c.name } ::
      Validator.validate_folders c b
  | none =>
      [{ postman_item_path := c.path, bruno_path := S "NOT FOUND",
         rtype := S "collection",
         postman_count := c.request_count, bruno_count := 0,
         validation_status := S "Fail",
         description := S "Collection " ++ Validator.quoted c.name ++
           S " not found in Bruno" }]

/-- Claim C4's description of the single record emitted for one source
folder: the first target folder of the entire flattened target list with
matching normalized name is compared on total request counts (`Pass` iff
equal); with no match, one `Fail` record with `bruno_count` 0 and
`bruno_path` `"NOT FOUND"`. -/
def folder_record (bfs : List Bruno.FolderNode) (f : Postman.FolderNode) :
    Validator.VRecord :=
  match bfs.find? (fun b => normalize_name f.name == normalize_name b.name) with
  | some b =>
      { postman_item_path := f.path, bruno_path := b.path,
        rtype := S "folder",
        postman_count := f.request_count, bruno_count := b.request_count,
        validation_status := eqStatus f.request_count b.request_count,
        description := S "Request count in folder " ++ Validator.quoted f.name }
  | none =>
      { postman_item_path := f.path, bruno_path := S "NOT FOUND",
        rtype := S "folder",
        postman_count := f.request_count, bruno_count := 0,
        validation_status := S "Fail",
        description := S "Folder " ++ Validator.quoted f.name ++
          S " not found in Bruno" }

/-- Claim C6's wording of a method-block match for one method literal:
somewhere in the content, at the start of a line, the literal followed by
(nonempty) whitespace and an opening brace. -/
def methodMatchAt (m content : Str) : Prop :=
  ∃ pre ws rest, content = pre ++ m ++ ws ++ lbrace :: rest ∧
    (pre = [] ∨ pre.getLast? = some '\n') ∧ ws ≠ [] ∧ ∀ c ∈ ws, isPySpace c = true

/-- Claim C6's request criterion: some lowercase method literal matches. -/
def isRequestSpec (content : Str) : Prop :=
  ∃ m ∈ Bruno.httpMethods, methodMatchAt m content

/-- Number of immediate request items (claim C1's
`direct_request_count` at a source node). -/
def direct_request_count_pm (items : List PmItem) : Nat :=
  items.countP (fun i => i.hasRequest)

/-- The nested item lists of the immediate child folders of a source
node. -/
def folder_subs : List PmItem → List (List PmItem)
  | [] => []
  | PmItem.mk _ false (some sub) :: rest => sub :: folder_subs rest
  | PmItem.mk _ false none :: rest => folder_subs rest
  | PmItem.mk _ true _ :: rest => folder_subs rest

/-- The total request count the Bruno parser stores on the folder node of
directory `d`: direct requests plus `count_all_requests` over the
marker-bearing subdirectories (`bruno_parser.py` lines 180-183). -/
def bru_total_request (d : BruDir) : Nat :=
  Bruno.count_requests_in_directory d.files +
    Bruno.count_all_requests_list (d.subdirs.filter (fun c => Bruno.is_folder c))

end Spec

mutual

/-- Every subdirectory of `d`, recursively, carries a `folder.bru`
marker (the well-formedness proviso under which the Bruno request-count
aggregation law holds). -/
def allFolders : BruDir → Bool
  | .mk _ _ ds => allFoldersList ds

/-- `allFolders` over a list of sibling directories. -/
def allFoldersList : List BruDir → Bool
  | [] => true
  | d :: ds => Bruno.is_folder d && allFolders d && allFoldersList ds

end

/-! ## Mirror construction (claim C2)

Builds, for a synthetic source tree, the identically-shaped and
identically-named Bruno directory tree on disk. -/

namespace Mirror

/-- Content of a mirrored request file: a lone `get` block. -/
def reqContent : Str := S "get " ++ lbrace :: '\n' :: [rbrace]

/-- Unary spelling of an index (dot-free, so the file suffix is stable). -/
def unar : Nat → Str
  | 0 => []
  | n + 1 => 'x' :: unar n

/-- Filename of the `i`-th mirrored request file. -/
def reqName (i : Nat) : Str := 'r' :: (unar i ++ S ".bru")

/-- Content of a mirrored `folder.bru`: a meta block declaring `name`. -/
def folderContent (n : Str) : Str :=
  S "meta " ++ lbrace :: (S "\nname: " ++ n ++ '\n' :: [rbrace])

/-- The name the Postman parser will use for a folder item. -/
def resolvedName (n : Option Str) : Str := n.getD (S "Unnamed")

/-- Request files of the mirrored directory for an item list (one `.bru`
file per request item, distinct names). -/
def mirrorFiles : List PmItem → Nat → List BruFile
  | [], _ => []
  | PmItem.mk _ true _ :: rest, i =>
      { fname := reqName i, content := reqContent } :: mirrorFiles rest (i + 1)
  | PmItem.mk _ false _ :: rest, i => mirrorFiles rest (i + 1)

/-- Subdirectories of the mirrored directory: one marker-bearing folder
per folder item, same name, mirrored recursively. -/
def mirrorDirs : List PmItem → List BruDir
  | [] => []
  | PmItem.mk n false (some sub) :: rest =>
      BruDir.mk (resolvedName n)
        ({ fname := S "folder.bru", content := folderContent (resolvedName n) } ::
          mirrorFiles sub 0)
        (mirrorDirs sub) :: mirrorDirs rest
  | PmItem.mk _ false none :: rest => mirrorDirs rest
  | PmItem.mk _ true _ :: rest => mirrorDirs rest

/-- The mirrored collection directory: basename = collection name, a
`collection.bru` marker, and the mirrored contents. -/
def mirrorCollection (name : Str) (items : List PmItem) : BruDir :=
  BruDir.mk name
    ({ fname := S "collection.bru", content := [] } :: mirrorFiles items 0)
    (mirrorDirs items)

/-- The on-disk JSON file of one synthetic collection. -/
def srcFile (c : Str × List PmItem) : Postman.ColFile :=
  { filename := c.1 ++ S ".json",
    parsed := some { info_name := some c.1, items := some c.2 } }

/-- The synthetic source workspace for a list of (collection name, item
tree) pairs. -/
def srcWorkspace (p : Str) (cols : List (Str × List PmItem)) : Postman.Workspace :=
  { path := p,
    collectionsDir := some (cols.map srcFile),
    environmentsDir := some [],
    globalFile := none }

/-- The identically-shaped, identically-named target workspace. -/
def mirrorWorkspace (q : Str) (cols : List (Str × List PmItem)) : Bruno.Workspace :=
  { path := q,
    collectionsDir := some (cols.map (fun c => mirrorCollection c.1 c.2)),
    environmentsDir := some [] }

/-- A name the mirrored `folder.bru` grammar reproduces exactly: no
newline, no closing brace, no surrounding whitespace. -/
def tameName (n : Str) : Bool :=
  n.all (fun c => c ≠ '\n' && c ≠ rbrace) && (pyStrip n == n)

/-- All folder names of a source item tree are tame. -/
def tameItems : List PmItem → Bool
  | [] => true
  | PmItem.mk n false (some sub) :: rest =>
      tameName (resolvedName n) && tameItems sub && tameItems rest
  | PmItem.mk _ false none :: rest => tameItems rest
  | PmItem.mk _ true _ :: rest => tameItems rest

/-- The collection node the Postman parser produces for one synthetic
collection. -/
def pmNode (colPath : Str) (c : Str × List PmItem) : Postman.ColNode :=
  Postman.collection_node colPath (srcFile c)
    { info_name := some c.1, items := some c.2 }

/-- The collection node the Bruno parser produces for one mirrored
collection. -/
def bruNode (colPath : Str) (c : Str × List PmItem) : Bruno.ColNode :=
  { name := c.1, path := colPath ++ S "/" ++ c.1,
    request_count := Bruno.count_all_requests (mirrorCollection c.1 c.2),
    folder_count := Bruno.count_all_folders (mirrorCollection c.1 c.2),
    folders := Bruno.get_folder_structure (mirrorCollection c.1 c.2)
      (colPath ++ S "/" ++ c.1) [] }

end Mirror

/-! ## Concrete fixtures for counterexamples and witnesses -/

/-- Nested folder chain refuting the Bruno folder-count aggregation law:
collection `C` ⊃ folder `A` ⊃ folder `B` ⊃ folder `Cc`. -/
def cex1Cc : BruDir := .mk (S "Cc") [{ fname := S "folder.bru", content := [] }] []

/-- Middle folder of the chain. -/
def cex1B : BruDir := .mk (S "B") [{ fname := S "folder.bru", content := [] }] [cex1Cc]

/-- Top folder of the chain. -/
def cex1A : BruDir := .mk (S "A") [{ fname := S "folder.bru", content := [] }] [cex1B]

/-- The collection directory of the chain. -/
def cex1Col : BruDir :=
  .mk (S "C") [{ fname := S "collection.bru", content := [] }] [cex1A]

/-- The Bruno workspace for the C1 counterexample. -/
def cex1Ws : Bruno.Workspace := { path := S "bw", collectionsDir := some [cex1Col], environmentsDir := some [] }

/-- Source tree for the C2 counterexample: one collection with two sibling
folders whose names normalize identically (`A b` and `ab`) but whose
request counts differ. -/
def cex2Cols : List (Str × List PmItem) :=
  [(S "C",
    [PmItem.mk (some (S "A b")) false
       (some [PmItem.mk (some (S "r")) true none]),
     PmItem.mk (some (S "ab")) false (some [])])]

/-- The C2 counterexample source workspace. -/
def cex2Pm : Postman.Workspace := Mirror.srcWorkspace (S "pw") cex2Cols

/-- The C2 counterexample target workspace: the identically-shaped,
identically-named mirror of the source. -/
def cex2Br : Bruno.Workspace := Mirror.mirrorWorkspace (S "bw") cex2Cols

/-- A workspace whose single collection file holds content `json.load`
rejects. -/
def cex5Pm : Postman.Workspace :=
  { path := S "pw",
    collectionsDir := some [{ filename := S "bad.json", parsed := none }],
    environmentsDir := none, globalFile := none }

/-- An arbitrary (empty) Bruno workspace. -/
def cex5Br : Bruno.Workspace :=
  { path := S "bw", collectionsDir := none, environmentsDir := none }

/-- Whether every JSON file of the source workspace parses (the proviso
under which a validation run completes). -/
def all_json_parse (ws : Postman.Workspace) : Bool :=
  (ws.collectionsDir.getD []).all (fun f => f.parsed.isSome) &&
  (ws.environmentsDir.getD []).all (fun f => f.parsed.isSome) &&
  (match ws.globalFile with
   | some gf => gf.parsed.isSome
   | none => true)

/-- A `collection.bru` whose meta block declares a name different from
its directory's basename. -/
def c10ColContent : Str := Mirror.folderContent (S "Different")

/-- Collection directory named `dirname` whose `collection.bru` declares
`name: Different`, holding one folder directory named `plain` whose
`folder.bru` declares `name: Fancy`. -/
def c10Dir : BruDir :=
  .mk (S "dirname") [{ fname := S "collection.bru", content := c10ColContent }]
    [.mk (S "plain")
      [{ fname := S "folder.bru", content := Mirror.folderContent (S "Fancy") }] []]

/-- The Bruno workspace for the C10 naming contrast. -/
def c10Ws : Bruno.Workspace :=
  { path := S "bw", collectionsDir := some [c10Dir], environmentsDir := some [] }

/-- Source workspace for the C9 witness: only a `global_variables.json`
with four keys. -/
def c9Pm : Postman.Workspace :=
  { path := S "pw", collectionsDir := none, environmentsDir := none,
    globalFile :=
      some ⟨some ⟨some [some (S "a"), some (S "b"), some (S "c"), some (S "d")]⟩⟩ }

/-- Target workspace for the C9 witness. -/
def c9Br : Bruno.Workspace :=
  { path := S "bw", collectionsDir := none, environmentsDir := none }

/-- Source tree for the C2 witness (the specification's round-trip
scenario): collection `User API` with 3 direct requests and a sub-folder
`Auth` holding 2 requests. -/
def c2wCols : List (Str × List PmItem) :=
  [(S "User API",
    [PmItem.mk (some (S "r1")) true none,
     PmItem.mk (some (S "r2")) true none,
     PmItem.mk (some (S "r3")) true none,
     PmItem.mk (some (S "Auth")) false
       (some [PmItem.mk (some (S "a1")) true none,
              PmItem.mk (some (S "a2")) true none])])]

/-! ## Theorems -/

/-- ASCII case mapping is idempotent. -/
theorem pyLowerChar_idem (c : Char) : pyLowerChar (pyLowerChar c) = pyLowerChar c := by
  unfold pyLowerChar
  by_cases h : 65 ≤ c.toNat ∧ c.toNat ≤ 90
  · have h1 : (Char.ofNat (c.toNat + 32)).toNat = c.toNat + 32 := by
      obtain ⟨h65, h90⟩ := h
      set n := c.toNat with hn
      interval_cases n <;> decide
    rw [if_pos h, if_neg (by rw [h1]; omega)]
  · rw [if_neg h, if_neg h]

/-- The sequential-replace form of `normalize_name` equals the claim's
single combined filter. -/
theorem normalize_name_eq_spec (s : Str) : normalize_name s = normalizeSpec s := by
  unfold normalize_name normalizeSpec
  rw [List.filter_filter, List.filter_filter]
  apply List.filter_congr
  intro c _
  by_cases h1 : c = ' ' <;> by_cases h2 : c = '_' <;> by_cases h3 : c = '-' <;>
    simp [h1, h2, h3]

/-- Characters surviving `normalize_name` are lower-case-fixed and none of
the removed characters. -/
theorem mem_normalize_name {c : Char} {s : Str} (h : c ∈ normalize_name s) :
    pyLowerChar c = c ∧ c ≠ ' ' ∧ c ≠ '_' ∧ c ≠ '-' := by
  unfold normalize_name at h
  have h3 := List.mem_filter.mp h
  have h2 := List.mem_filter.mp h3.1
  have h1 := List.mem_filter.mp h2.1
  have hmap := h1.1
  unfold pyLower at hmap
  obtain ⟨c0, _, rfl⟩ := List.mem_map.mp hmap
  refine ⟨pyLowerChar_idem c0, ?_, ?_, ?_⟩
  · simpa using h1.2
  · simpa using h2.2
  · simpa using h3.2

/-- `normalize_name` is idempotent. -/
theorem normalize_name_idem (s : Str) :
    normalize_name (normalize_name s) = normalize_name s := by
  have hfix : pyLower (normalize_name s) = normalize_name s := by
    unfold pyLower
    rw [List.map_congr_left (fun a ha => (mem_normalize_name ha).1)]
    exact List.map_id _
  conv_lhs => rw [normalize_name, hfix]
  rw [List.filter_eq_self.mpr, List.filter_eq_self.mpr, List.filter_eq_self.mpr]
  · intro a ha
    simpa using (mem_normalize_name ha).2.1
  · intro a ha
    have := (mem_normalize_name (List.mem_filter.mp ha).1).2.2.1
    simpa using this
  · intro a ha
    have h1 := List.mem_filter.mp ha
    have h2 := List.mem_filter.mp h1.1
    simpa using (mem_normalize_name h2.1).2.2.2

/-- C7: `normalize_name` lower-cases and removes exactly space, underscore
and hyphen; it is idempotent, and the three example names all normalize
identically. -/
theorem C7_normalize_name :
    (∀ s, normalize_name s = normalizeSpec s) ∧
    (∀ s, normalize_name (normalize_name s) = normalize_name s) ∧
    normalize_name (S "My Folder") = normalize_name (S "my_folder") ∧
    normalize_name (S "my_folder") = normalize_name (S "MY-FOLDER") := by
  refine ⟨normalize_name_eq_spec, normalize_name_idem, ?_, ?_⟩ <;> decide

/-- C8: a missing `collections/` or `environments/` directory yields an
empty result set from the corresponding parser operation, not an error. -/
theorem C8_missing_dirs (pws : Postman.Workspace) (bws : Bruno.Workspace) :
    (pws.collectionsDir = none → Postman.get_collection_structure pws = .ok []) ∧
    (pws.environmentsDir = none → Postman.get_environment_variables pws = .ok []) ∧
    (bws.collectionsDir = none → Bruno.get_collection_structure bws = []) ∧
    (bws.environmentsDir = none → Bruno.get_environment_variables bws = []) := by
  refine ⟨fun h => ?_, fun h => ?_, fun h => ?_, fun h => ?_⟩ <;>
    simp [Postman.get_collection_structure, Postman.get_environment_variables,
      Bruno.get_collection_structure, Bruno.get_environment_variables, h]

/-- Witness for C8 at a concrete workspace with both directories absent. -/
theorem C8_missing_dirs_witness :
    Postman.get_collection_structure ⟨S "p", none, none, none⟩ = .ok [] ∧
    Postman.get_environment_variables ⟨S "p", none, none, none⟩ = .ok [] ∧
    Bruno.get_collection_structure ⟨S "b", none, none⟩ = [] ∧
    Bruno.get_environment_variables ⟨S "b", none, none⟩ = [] := by
  have h := C8_missing_dirs ⟨S "p", none, none, none⟩ ⟨S "b", none, none⟩
  exact ⟨h.1 rfl, h.2.1 rfl, h.2.2.1 rfl, h.2.2.2 rfl⟩

/-- C10: every Bruno collection node is named by its directory's basename
(first conjunct, over all workspaces); on the concrete contrast fixture
the `collection.bru` meta block declares `name: Different`, which
`parse_bru_file` does extract, yet the collection node is named
`dirname` — while the folder node inside takes its name `Fancy` from the
meta block of its `folder.bru`, not from its directory name `plain`. -/
theorem C10_collection_named_by_dirname :
    (∀ (ds : List BruDir) (colPath : Str),
      (Bruno.collection_structure_list ds colPath).map (fun c => c.name) =
        (ds.filter (fun d => Bruno.is_collection_root d)).map BruDir.dname) ∧
    (Bruno.get_collection_structure c10Ws).map
      (fun c => (c.name, c.folders.map (fun f => f.name))) =
      [(S "dirname", [S "Fancy"])] ∧
    (Bruno.parse_bru_file (S "collection.bru") c10ColContent).name = S "Different" := by
  refine ⟨fun ds colPath => ?_, ?_, by decide⟩
  · induction ds with
    | nil => rfl
    | cons d ds ih =>
        by_cases h : Bruno.is_collection_root d <;>
          simp [Bruno.collection_structure_list, List.filter_cons, h, ih]
  · simp [Bruno.get_collection_structure, c10Ws, c10Dir, Bruno.collection_structure_list,
      Bruno.get_folder_structure, Bruno.folder_structure_list]
    decide

/-- The collection-loading loop succeeds when every file's content
parses. -/
theorem collection_structure_loop_ok (colPath : Str) :
    ∀ fs : List Postman.ColFile, (∀ f ∈ fs, f.parsed.isSome = true) →
      ∃ ns, Postman.collection_structure_loop colPath fs = .ok ns := by
  intro fs
  induction fs with
  | nil => exact fun _ => ⟨[], rfl⟩
  | cons f fs ih =>
      intro h
      obtain ⟨d, hd⟩ := Option.isSome_iff_exists.mp (h f (by simp))
      obtain ⟨ns, hns⟩ := ih (fun g hg => h g (by simp [hg]))
      refine ⟨Postman.collection_node colPath f d :: ns, ?_⟩
      simp only [Postman.collection_structure_loop, Postman.parse_collection, hd, hns]
      rfl

/-- The environment-loading loop succeeds when every file's content
parses. -/
theorem environment_loop_ok (envPath : Str) :
    ∀ fs : List Postman.EnvFile, (∀ f ∈ fs, f.parsed.isSome = true) →
      ∃ ns, Postman.environment_loop envPath fs = .ok ns := by
  intro fs
  induction fs with
  | nil => exact fun _ => ⟨[], rfl⟩
  | cons f fs ih =>
      intro h
      obtain ⟨d, hd⟩ := Option.isSome_iff_exists.mp (h f (by simp))
      obtain ⟨ns, hns⟩ := ih (fun g hg => h g (by simp [hg]))
      refine ⟨Postman.env_node envPath f d :: ns, ?_⟩
      simp only [Postman.environment_loop, hd, hns]
      rfl

/-- C5 (amended): whenever every JSON file of the source workspace
parses, a validation run completes and produces a list of records — for
every target workspace, however malformed its `.bru` and `.yml` file
contents are (the target-format parsing below is total and never
raises).  The original claim fails for unparseable source JSON:
see the counterexample. -/
theorem C5_run_completes (pws : Postman.Workspace) (bws : Bruno.Workspace)
    (h : all_json_parse pws = true) :
    ∃ recs, Validator.generate_validation_report pws bws = .ok recs := by
  unfold all_json_parse at h
  simp only [Bool.and_eq_true, List.all_eq_true] at h
  obtain ⟨⟨hcol, henv⟩, hglob⟩ := h
  have hc : ∃ ns, Postman.get_collection_structure pws = .ok ns := by
    unfold Postman.get_collection_structure
    match hdir : pws.collectionsDir with
    | none => exact ⟨[], rfl⟩
    | some files =>
        apply collection_structure_loop_ok
        intro f hf
        exact hcol f (by rw [hdir]; simpa using (List.mem_filter.mp hf).1)
  have he : ∃ ns, Postman.get_environment_variables pws = .ok ns := by
    unfold Postman.get_environment_variables
    match hdir : pws.environmentsDir with
    | none => exact ⟨[], rfl⟩
    | some files =>
        apply environment_loop_ok
        intro f hf
        exact henv f (by rw [hdir]; simpa using (List.mem_filter.mp hf).1)
  have hg : ∃ g, Postman.get_global_variables pws = .ok g := by
    unfold Postman.get_global_variables
    match hdir : pws.globalFile with
    | none => exact ⟨none, rfl⟩
    | some gf =>
        rw [hdir] at hglob
        obtain ⟨d, hd⟩ := Option.isSome_iff_exists.mp hglob
        exact ⟨some { name := S "Global Variables",
                      path := pws.path ++ S "/global_variables.json",
                      variable_count := (d.values.getD []).length },
          by simp [hd]⟩
  obtain ⟨cols, hc⟩ := hc
  obtain ⟨envs, he⟩ := he
  obtain ⟨g, hg⟩ := hg
  have hsum : Postman.get_workspace_summary pws =
      .ok ⟨pws.path, cols, envs, g⟩ := by
    simp only [Postman.get_workspace_summary, hc, he, hg]
    rfl
  refine ⟨Validator.validate_collections ⟨pws.path, cols, envs, g⟩
      (Bruno.get_workspace_summary bws) ++
    Validator.validate_environments_core pws.path
      (Bruno.get_workspace_summary bws).workspace_path envs
      (Bruno.get_workspace_summary bws).environments g, ?_⟩
  unfold Validator.generate_validation_report
  rw [hsum]
  rfl

/-- Witness for C5 on a concrete source workspace whose JSON all parses
(and a target workspace with arbitrary, even missing, content). -/
theorem C5_run_completes_witness :
    ∃ recs, Validator.generate_validation_report
      ⟨S "p", some [⟨S "a.json", some ⟨some (S "A"), some []⟩⟩], none,
        some ⟨some ⟨some [some (S "k")]⟩⟩⟩
      ⟨S "b", none, none⟩ = .ok recs :=
  C5_run_completes _ _ (by decide)

/-- Counterexample to C5 as stated: a source workspace holding one
collection file whose content `json.load` rejects makes the validation
run raise (`Except.error`) instead of completing with a list of
records. -/
theorem C5_counterexample :
    Validator.generate_validation_report cex5Pm cex5Br =
      .error (S "JSONDecodeError") := by
  rfl

/-- Every record of the folder-validation loop has type `folder`. -/
theorem validate_folders_loop_rtype (bfs : List Bruno.FolderNode) :
    ∀ pfs r, r ∈ Validator.validate_folders_loop bfs pfs → r.rtype = S "folder" := by
  intro pfs
  induction pfs with
  | nil => simp [Validator.validate_folders_loop]
  | cons pf pfs ih =>
      intro r hr
      rw [Validator.validate_folders_loop] at hr
      rcases List.mem_cons.mp hr with h | h
      · subst h
        cases Validator.find_matching_bruno_folder pf bfs <;> rfl
      · exact ih r h

/-- Every record of the collection-validation loop has type `collection`
or `folder`. -/
theorem validate_collections_loop_rtype (bcols : List Bruno.ColNode) :
    ∀ pcs r, r ∈ Validator.validate_collections_loop bcols pcs →
      r.rtype = S "collection" ∨ r.rtype = S "folder" := by
  intro pcs
  induction pcs with
  | nil => simp [Validator.validate_collections_loop]
  | cons pc pcs ih =>
      intro r hr
      rw [Validator.validate_collections_loop] at hr
      rcases List.mem_append.mp hr with h | h
      · cases hfind : Validator.find_matching_bruno_collection pc bcols <;>
          rw [hfind] at h
        · left
          simpa using (List.mem_singleton.mp h) ▸ rfl
        · rcases List.mem_cons.mp h with h1 | h1
          · left; exact h1 ▸ rfl
          rcases List.mem_cons.mp h1 with h2 | h2
          · left; exact h2 ▸ rfl
          · right
            exact validate_folders_loop_rtype _ _ r h2
      · exact ih r h

/-- Every record of the environment-validation loop has type
`environment`. -/
theorem validate_environments_loop_rtype (bes : List Postman.EnvNode) :
    ∀ pes r, r ∈ Validator.validate_environments_loop bes pes →
      r.rtype = S "environment" := by
  intro pes
  induction pes with
  | nil => simp [Validator.validate_environments_loop]
  | cons pe pes ih =>
      intro r hr
      rw [Validator.validate_environments_loop] at hr
      rcases List.mem_cons.mp hr with h | h
      · subst h
        cases Validator.find_matching_bruno_env pe bes <;> rfl
      · exact ih r h

/-- Records whose type is a fixed string other than `global_variables`
never survive the `global_variables` filter. -/
theorem filter_gv_of_forall (L : List Validator.VRecord)
    (h : ∀ r ∈ L, r.rtype = S "workspace" ∨ r.rtype = S "collection" ∨
      r.rtype = S "folder" ∨ r.rtype = S "environment") :
    L.filter (fun r => r.rtype == S "global_variables") = [] := by
  rw [List.filter_eq_nil_iff]
  intro r hr
  rcases h r hr with h1 | h1 | h1 | h1 <;> rw [h1] <;> decide

/-- Dropping a cons cell whose record type is not `global_variables`. -/
theorem filter_cons_of_ne_gv (r : Validator.VRecord) (L : List Validator.VRecord)
    (h : (r.rtype == S "global_variables") = false) :
    (r :: L).filter (fun x => x.rtype == S "global_variables") =
      L.filter (fun x => x.rtype == S "global_variables") := by
  rw [List.filter_cons]
  simp [h]

/-- The `global_variables` records of `validate_environments_core` are
exactly the optional global-variables `Info` record. -/
theorem filter_gv_env_core (pmPath bruPath : Str)
    (pes bes : List Postman.EnvNode) (g : Option Postman.GlobalNode) :
    (Validator.validate_environments_core pmPath bruPath pes bes g).filter
      (fun r => r.rtype == S "global_variables") =
      (match g with
       | some gv =>
          [{ postman_item_path := gv.path, bruno_path := S "N/A",
             rtype := S "global_variables",
             postman_count := gv.variable_count, bruno_count := 0,
             validation_status := S "Info",
             description := S "Global variables (Bruno does not have direct equivalent)" }]
       | none => []) := by
  have h2 : ∀ r ∈ Validator.validate_environments_loop bes pes,
      r.rtype = S "workspace" ∨ r.rtype = S "collection" ∨
      r.rtype = S "folder" ∨ r.rtype = S "environment" :=
    fun r hr => Or.inr (Or.inr (Or.inr (validate_environments_loop_rtype _ _ r hr)))
  unfold Validator.validate_environments_core
  rw [List.cons_append,
    filter_cons_of_ne_gv
      { postman_item_path := pmPath ++ S "/environments",
        bruno_path := bruPath ++ S "/environments",
        rtype := S "environment",
        postman_count := pes.length, bruno_count := bes.length,
        validation_status :=
          if pes.length = bes.length then S "Pass" else S "Fail",
        description := S "Environment count" } _ rfl,
    List.filter_append, filter_gv_of_forall _ h2, List.nil_append]
  cases g with
  | none => rfl
  | some gv => rfl

/-- C9: when `global_variables.json` exists and parses with `N` entries in
its `values` array, the full validation report contains exactly one
record of type `global_variables`, with `postman_count = N`,
`bruno_count = 0` and status `Info`; when the file is absent, the report
contains no such record. -/
theorem C9_global_variables (pws : Postman.Workspace) (bws : Bruno.Workspace) :
    (∀ gf d vs recs, pws.globalFile = some gf → gf.parsed = some d →
      d.values = some vs →
      Validator.generate_validation_report pws bws = .ok recs →
      recs.filter (fun r => r.rtype == S "global_variables") =
        [{ postman_item_path := pws.path ++ S "/global_variables.json",
           bruno_path := S "N/A", rtype := S "global_variables",
           postman_count := vs.length, bruno_count := 0,
           validation_status := S "Info",
           description := S "Global variables (Bruno does not have direct equivalent)" }]) ∧
    (∀ recs, pws.globalFile = none →
      Validator.generate_validation_report pws bws = .ok recs →
      recs.filter (fun r => r.rtype == S "global_variables") = []) := by
  have key : ∀ (g : Option Postman.GlobalNode) recs cols envs,
      Postman.get_collection_structure pws = .ok cols →
      Postman.get_environment_variables pws = .ok envs →
      Postman.get_global_variables pws = .ok g →
      Validator.generate_validation_report pws bws = .ok recs →
      recs.filter (fun r => r.rtype == S "global_variables") =
        (match g with
         | some gv =>
            [{ postman_item_path := gv.path, bruno_path := S "N/A",
               rtype := S "global_variables",
               postman_count := gv.variable_count, bruno_count := 0,
               validation_status := S "Info",
               description := S "Global variables (Bruno does not have direct equivalent)" }]
         | none => []) := by
    intro g recs cols envs hc he hg hrecs
    have hsum : Postman.get_workspace_summary pws = .ok ⟨pws.path, cols, envs, g⟩ := by
      simp only [Postman.get_workspace_summary, hc, he, hg]
      rfl
    unfold Validator.generate_validation_report at hrecs
    rw [hsum] at hrecs
    have hrecs' : recs =
        Validator.validate_collections ⟨pws.path, cols, envs, g⟩
          (Bruno.get_workspace_summary bws) ++
        Validator.validate_environments_core pws.path
          (Bruno.get_workspace_summary bws).workspace_path envs
          (Bruno.get_workspace_summary bws).environments g := by
      injection hrecs with h
      exact h.symm
    subst hrecs'
    have h1 : (Validator.validate_collections ⟨pws.path, cols, envs, g⟩
        (Bruno.get_workspace_summary bws)).filter
          (fun r => r.rtype == S "global_variables") = [] := by
      apply filter_gv_of_forall
      intro r hr
      rw [Validator.validate_collections] at hr
      rcases List.mem_cons.mp hr with h | h
      · subst h
        exact Or.inl rfl
      · rcases validate_collections_loop_rtype _ _ r h with h1 | h1
        · exact Or.inr (Or.inl h1)
        · exact Or.inr (Or.inr (Or.inl h1))
    rw [List.filter_append, h1, List.nil_append, filter_gv_env_core]
  constructor
  · intro gf d vs recs hgf hd hvs hrecs
    rcases hrc : Postman.get_collection_structure pws with e | cols
    · exfalso
      unfold Validator.generate_validation_report Postman.get_workspace_summary at hrecs
      rw [hrc] at hrecs
      exact Except.noConfusion
        (show (Except.error e : Except Str (List Validator.VRecord)) = .ok recs from hrecs)
    rcases hre : Postman.get_environment_variables pws with e | envs
    · exfalso
      unfold Validator.generate_validation_report Postman.get_workspace_summary at hrecs
      rw [hrc, hre] at hrecs
      exact Except.noConfusion
        (show (Except.error e : Except Str (List Validator.VRecord)) = .ok recs from hrecs)
    have hg : Postman.get_global_variables pws =
        .ok (some { name := S "Global Variables",
                    path := pws.path ++ S "/global_variables.json",
                    variable_count := vs.length }) := by
      unfold Postman.get_global_variables
      simp [hgf, hd, hvs]
    have := key _ recs cols envs hrc hre hg hrecs
    simpa using this
  · intro recs hnone hrecs
    rcases hrc : Postman.get_collection_structure pws with e | cols
    · exfalso
      unfold Validator.generate_validation_report Postman.get_workspace_summary at hrecs
      rw [hrc] at hrecs
      exact Except.noConfusion
        (show (Except.error e : Except Str (List Validator.VRecord)) = .ok recs from hrecs)
    rcases hre : Postman.get_environment_variables pws with e | envs
    · exfalso
      unfold Validator.generate_validation_report Postman.get_workspace_summary at hrecs
      rw [hrc, hre] at hrecs
      exact Except.noConfusion
        (show (Except.error e : Except Str (List Validator.VRecord)) = .ok recs from hrecs)
    have hg : Postman.get_global_variables pws = .ok none := by
      unfold Postman.get_global_variables
      simp [hnone]
    have := key _ recs cols envs hrc hre hg hrecs
    simpa using this

/-- Witness for C9 at a workspace whose `global_variables.json` has four
keys: the report holds exactly one `Info` record with `postman_count`
4. -/
theorem C9_global_variables_witness :
    ((Validator.generate_validation_report c9Pm c9Br).toOption.getD []).filter
      (fun r => r.rtype == S "global_variables") =
      [{ postman_item_path := S "pw" ++ S "/global_variables.json",
         bruno_path := S "N/A", rtype := S "global_variables",
         postman_count := 4, bruno_count := 0,
         validation_status := S "Info",
         description := S "Global variables (Bruno does not have direct equivalent)" }] := by
  have h := (C9_global_variables c9Pm c9Br).1
    ⟨some ⟨some [some (S "a"), some (S "b"), some (S "c"), some (S "d")]⟩⟩
    ⟨some [some (S "a"), some (S "b"), some (S "c"), some (S "d")]⟩
    [some (S "a"), some (S "b"), some (S "c"), some (S "d")]
    ((Validator.generate_validation_report c9Pm c9Br).toOption.getD [])
    rfl rfl rfl rfl
  simpa using h

/-- The hand-rolled first-match collection search is `List.find?` on
normalized-name equality. -/
theorem find_matching_collection_eq_find (pm : Postman.ColNode) :
    ∀ bcols, Validator.find_matching_bruno_collection pm bcols =
      bcols.find? (fun b => normalize_name pm.name == normalize_name b.name) := by
  intro bcols
  induction bcols with
  | nil => rfl
  | cons b bs ih =>
      rw [Validator.find_matching_bruno_collection, List.find?_cons]
      by_cases h : normalize_name pm.name = normalize_name b.name
      · simp [h]
      · have hb : (normalize_name pm.name == normalize_name b.name) = false :=
          beq_eq_false_iff_ne.mpr h
        simp [hb, ih, h]

/-- The hand-rolled first-match folder search is `List.find?` on
normalized-name equality. -/
theorem find_matching_folder_eq_find (pm : Postman.FolderNode) :
    ∀ bfs, Validator.find_matching_bruno_folder pm bfs =
      bfs.find? (fun b => normalize_name pm.name == normalize_name b.name) := by
  intro bfs
  induction bfs with
  | nil => rfl
  | cons b bs ih =>
      rw [Validator.find_matching_bruno_folder, List.find?_cons]
      by_cases h : normalize_name pm.name = normalize_name b.name
      · simp [h]
      · have hb : (normalize_name pm.name == normalize_name b.name) = false :=
          beq_eq_false_iff_ne.mpr h
        simp [hb, ih, h]

/-- C4: `validate_folders` emits exactly one record per source folder of
the flattened source list (a `map`); each source folder is matched
against the entire flattened target list by first normalized-name match
(`List.find?`); a matched pair is compared on total request counts with
status `Pass` iff they are equal; an unmatched source folder yields one
`Fail` record with `bruno_count = 0` and `bruno_path = "NOT FOUND"`. -/
theorem C4_validate_folders (pm : Postman.ColNode) (br : Bruno.ColNode) :
    (Validator.validate_folders pm br = pm.folders.map (Spec.folder_record br.folders)) ∧
    (∀ (bfs : List Bruno.FolderNode) (f : Postman.FolderNode) b,
      bfs.find? (fun x => normalize_name f.name == normalize_name x.name) = some b →
      Spec.folder_record bfs f =
        { postman_item_path := f.path, bruno_path := b.path, rtype := S "folder",
          postman_count := f.request_count, bruno_count := b.request_count,
          validation_status := Spec.eqStatus f.request_count b.request_count,
          description := S "Request count in folder " ++ Validator.quoted f.name }) ∧
    (∀ (bfs : List Bruno.FolderNode) (f : Postman.FolderNode),
      bfs.find? (fun x => normalize_name f.name == normalize_name x.name) = none →
      Spec.folder_record bfs f =
        { postman_item_path := f.path, bruno_path := S "NOT FOUND", rtype := S "folder",
          postman_count := f.request_count, bruno_count := 0,
          validation_status := S "Fail",
          description := S "Folder " ++ Validator.quoted f.name ++
            S " not found in Bruno" }) ∧
    (∀ a b : Nat, Spec.eqStatus a b = S "Pass" ↔ a = b) := by
  refine ⟨?_, ?_, ?_, ?_⟩
  · rw [Validator.validate_folders]
    induction pm.folders with
    | nil => rfl
    | cons f fs ih =>
        rw [Validator.validate_folders_loop, List.map_cons, ih,
          find_matching_folder_eq_find]
        rcases h : br.folders.find?
            (fun x => normalize_name f.name == normalize_name x.name) with _ | b <;>
          rw [Spec.folder_record, h] <;> rfl
  · intro bfs f b h
    rw [Spec.folder_record, h]
  · intro bfs f h
    rw [Spec.folder_record, h]
  · intro a b
    rw [Spec.eqStatus]
    by_cases h : a = b <;> simp [h]
    decide

/-- Witness for C4 (the specification's `Legacy` scenario): a source
folder with 5 requests and no normalized-name match in the target list
yields exactly the single `Fail` record with `bruno_count = 0` and
`bruno_path = "NOT FOUND"`. -/
theorem C4_validate_folders_witness :
    Spec.folder_record []
      { name := S "Legacy", path := S "p/Legacy", request_count := 5,
        folder_count := 0 } =
      { postman_item_path := S "p/Legacy", bruno_path := S "NOT FOUND",
        rtype := S "folder", postman_count := 5, bruno_count := 0,
        validation_status := S "Fail",
        description := S "Folder " ++ Validator.quoted (S "Legacy") ++
          S " not found in Bruno" } ∧
    Spec.eqStatus 2 2 = S "Pass" := by
  have h := C4_validate_folders
    { name := S "c", path := S "p", request_count := 0, folder_count := 0, folders := [] }
    { name := S "c", path := S "b", request_count := 0, folder_count := 0, folders := [] }
  exact ⟨h.2.2.1 _ _ rfl, (h.2.2.2 2 2).mpr rfl⟩

/-- C3: `validate_collections` is the workspace-level count record
followed by, for each source collection in order, the claim's
per-collection record list: two count records (`Pass` iff exactly
equal) plus the pair's folder records when a normalized-name match
exists, and exactly one `"NOT FOUND"`/zero-count `Fail` record with no
folder-level records otherwise. -/
theorem C3_validate_collections (pm : Postman.Summary) (br : Bruno.Summary) :
    (Validator.validate_collections pm br =
      { postman_item_path := pm.workspace_path ++ S "/collections",
        bruno_path := br.workspace_path ++ S "/collections",
        rtype := S "workspace",
        postman_count := pm.collections.length,
        bruno_count := br.collections.length,
        validation_status :=
          if pm.collections.length = br.collections.length then S "Pass" else S "Fail",
        description := S "Collection count in workspace" } ::
      pm.collections.flatMap (Spec.collection_records br.collections)) ∧
    (∀ (bcols : List Bruno.ColNode) (c : Postman.ColNode) b,
      bcols.find? (fun x => normalize_name c.name == normalize_name x.name) = some b →
      Spec.collection_records bcols c =
        { postman_item_path := c.path, bruno_path := b.path, rtype := S "collection",
          postman_count := c.request_count, bruno_count := b.request_count,
          validation_status := Spec.eqStatus c.request_count b.request_count,
          description := S "Request count in collection " ++ Validator.quoted c.name } ::
        { postman_item_path := c.path, bruno_path := b.path, rtype := S "collection",
          postman_count := c.folder_count, bruno_count := b.folder_count,
          validation_status := Spec.eqStatus c.folder_count b.folder_count,
          description := S "Folder count in collection " ++ Validator.quoted c.name } ::
        Validator.validate_folders c b) ∧
    (∀ (bcols : List Bruno.ColNode) (c : Postman.ColNode),
      bcols.find? (fun x => normalize_name c.name == normalize_name x.name) = none →
      Spec.collection_records bcols c =
        [{ postman_item_path := c.path, bruno_path := S "NOT FOUND",
           rtype := S "collection",
           postman_count := c.request_count, bruno_count := 0,
           validation_status := S "Fail",
           description := S "Collection " ++ Validator.quoted c.name ++
             S " not found in Bruno" }]) := by
  refine ⟨?_, ?_, ?_⟩
  · rw [Validator.validate_collections]
    congr 1
    induction pm.collections with
    | nil => rfl
    | cons c cs ih =>
        rw [Validator.validate_collections_loop, List.flatMap_cons, ih,
          find_matching_collection_eq_find]
        rcases h : br.collections.find?
            (fun x => normalize_name c.name == normalize_name x.name) with _ | b <;>
          rw [Spec.collection_records, h] <;> rfl
  · intro bcols c b h
    rw [Spec.collection_records, h]
  · intro bcols c h
    rw [Spec.collection_records, h]

/-- Witness for C3: a source collection with no normalized-name match
yields exactly the single `"NOT FOUND"` `Fail` record. -/
theorem C3_validate_collections_witness :
    Spec.collection_records []
      { name := S "Orphan", path := S "p/Orphan.json", request_count := 7,
        folder_count := 1, folders := [] } =
      [{ postman_item_path := S "p/Orphan.json", bruno_path := S "NOT FOUND",
         rtype := S "collection", postman_count := 7, bruno_count := 0,
         validation_status := S "Fail",
         description := S "Collection " ++ Validator.quoted (S "Orphan") ++
           S " not found in Bruno" }] := by
  have h := C3_validate_collections
    { workspace_path := S "p", collections := [], environments := [],
      global_variables := none }
    { workspace_path := S "b", collections := [], environments := [] }
  exact h.2.2 _ _ rfl

/-- `dropWhile` skips a block of satisfying elements. -/
theorem dropWhile_append_of_all {α : Type} (p : α → Bool) :
    ∀ (l t : List α), (∀ c ∈ l, p c = true) →
      (l ++ t).dropWhile p = t.dropWhile p := by
  intro l t h
  induction l with
  | nil => rfl
  | cons a l ih =>
      rw [List.cons_append, List.dropWhile_cons, h a (by simp)]
      exact ih (fun c hc => h c (by simp [hc]))

/-- `wsPlusBrace` recognises exactly a nonempty whitespace run directly
followed by an opening brace. -/
theorem wsPlusBrace_iff (t : Str) :
    Bruno.wsPlusBrace t = true ↔
    ∃ ws rest, t = ws ++ lbrace :: rest ∧ ws ≠ [] ∧
      ∀ c ∈ ws, isPySpace c = true := by
  cases t with
  | nil =>
      simp only [Bruno.wsPlusBrace]
      constructor
      · intro h
        exact absurd h (by decide)
      · rintro ⟨ws, rest, h, -, -⟩
        exact absurd h.symm (by simp)
  | cons c r =>
      rw [Bruno.wsPlusBrace, Bool.and_eq_true]
      constructor
      · rintro ⟨hc, hd⟩
        have hr : r.takeWhile isPySpace ++ r.dropWhile isPySpace = r :=
          List.takeWhile_append_dropWhile _ _
        rcases hdw : r.dropWhile isPySpace with _ | ⟨d0, dr⟩
        · rw [hdw] at hd
          exact absurd hd (by simp)
        · rw [hdw] at hd
          have hd0 : d0 = lbrace := by
            simpa using hd.symm
          refine ⟨c :: r.takeWhile isPySpace, dr, ?_, by simp, ?_⟩
          · rw [List.cons_append]
            congr 1
            conv_lhs => rw [← hr]
            rw [hdw, hd0]
          · intro x hx
            rcases List.mem_cons.mp hx with h | h
            · exact h ▸ hc
            · exact List.mem_takeWhile_imp h
      · rintro ⟨ws, rest, ht, hne, hall⟩
        rcases ws with _ | ⟨w0, w'⟩
        · exact absurd rfl hne
        · rw [List.cons_append] at ht
          injection ht with h1 h2
          subst h1
          refine ⟨hall c (by simp), ?_⟩
          rw [h2, dropWhile_append_of_all isPySpace w'
            (lbrace :: rest) (fun x hx => hall x (by simp [hx]))]
          rw [List.dropWhile_cons, show isPySpace lbrace = false from rfl]
          rfl

/-- `methodHere` recognises exactly the method literal followed by
whitespace and an opening brace at the head of the string. -/
theorem methodHere_iff (m s : Str) :
    Bruno.methodHere m s = true ↔
    ∃ ws rest, s = m ++ (ws ++ lbrace :: rest) ∧ ws ≠ [] ∧
      ∀ c ∈ ws, isPySpace c = true := by
  unfold Bruno.methodHere
  rw [Bool.and_eq_true, List.isPrefixOf_iff_prefix]
  constructor
  · rintro ⟨⟨t, rfl⟩, hws⟩
    rw [List.drop_left] at hws
    obtain ⟨ws, rest, rfl, hne, hall⟩ := (wsPlusBrace_iff t).mp hws
    exact ⟨ws, rest, rfl, hne, hall⟩
  · rintro ⟨ws, rest, rfl, hne, hall⟩
    refine ⟨⟨ws ++ lbrace :: rest, rfl⟩, ?_⟩
    rw [List.drop_left]
    exact (wsPlusBrace_iff _).mpr ⟨ws, rest, rfl, hne, hall⟩

/-- The multiline scan finds exactly the decompositions whose prefix ends
at a line start (position 0 needs `atStart`). -/
theorem methodScan_iff (m : Str) :
    ∀ (s : Str) (atStart : Bool),
    Bruno.methodScan m s atStart = true ↔
    ∃ pre ws rest, s = pre ++ (m ++ (ws ++ lbrace :: rest)) ∧
      ((pre = [] ∧ atStart = true) ∨ pre.getLast? = some '\n') ∧
      ws ≠ [] ∧ ∀ c ∈ ws, isPySpace c = true := by
  intro s
  induction s with
  | nil =>
      intro atStart
      rw [Bruno.methodScan]
      constructor
      · intro h
        exact absurd h (by decide)
      · rintro ⟨pre, ws, rest, h, -, -, -⟩
        have : pre ++ (m ++ (ws ++ lbrace :: rest)) ≠ [] := by simp
        exact absurd h.symm this
  | cons c r ih =>
      intro atStart
      rw [Bruno.methodScan, Bool.or_eq_true, Bool.and_eq_true]
      constructor
      · rintro (⟨hA, hH⟩ | hS)
        · obtain ⟨ws, rest, hs, hne, hall⟩ := (methodHere_iff m (c :: r)).mp hH
          exact ⟨[], ws, rest, by simpa using hs, Or.inl ⟨rfl, hA⟩, hne, hall⟩
        · obtain ⟨pre', ws, rest, hr, hcond, hne, hall⟩ :=
            (ih (decide (c = '\n'))).mp hS
          refine ⟨c :: pre', ws, rest, by simp [hr], Or.inr ?_, hne, hall⟩
          rcases hcond with ⟨hp, hc⟩ | hp
          · subst hp
            have : c = '\n' := by simpa using hc
            simp [this]
          · rcases pre' with _ | ⟨p0, ps⟩
            · exact absurd hp (by simp)
            · rw [List.getLast?_cons_cons]
              exact hp
      · rintro ⟨pre, ws, rest, hs, hcond, hne, hall⟩
        rcases pre with _ | ⟨p0, ps⟩
        · left
          rcases hcond with ⟨-, hA⟩ | hp
          · exact ⟨hA, (methodHere_iff m (c :: r)).mpr
              ⟨ws, rest, by simpa using hs, hne, hall⟩⟩
          · exact absurd hp (by simp)
        · right
          rw [List.cons_append] at hs
          injection hs with h1 h2
          subst h1
          apply (ih (decide (c = '\n'))).mpr
          refine ⟨ps, ws, rest, h2, ?_, hne, hall⟩
          rcases hcond with ⟨hp, -⟩ | hp
          · exact absurd hp (by simp)
          · rcases ps with _ | ⟨q0, qs⟩
            · have : c = '\n' := by simpa using hp
              exact Or.inl ⟨rfl, by simp [this]⟩
            · rw [List.getLast?_cons_cons] at hp
              exact Or.inr hp

/-- C6: a non-marker `.bru` file is counted as a request exactly when its
content has, at the start of a line, one of the lowercase method
literals followed by whitespace and an opening brace; the recognition is
case-sensitive (`GET` is not matched); files matching no method block
contribute nothing. -/
theorem C6_request_detection :
    (∀ content, Bruno.hasMethodBlock content = true ↔ Spec.isRequestSpec content) ∧
    (∀ fs, Bruno.count_requests_in_directory fs =
      (fs.filter (fun f => (pathSuffix f.fname == S ".bru") &&
        !Bruno.is_marker_name f.fname && Bruno.hasMethodBlock f.content)).length) ∧
    Bruno.hasMethodBlock (S "GET " ++ [lbrace]) = false := by
  refine ⟨?_, ?_, by decide⟩
  · intro content
    rw [Bruno.hasMethodBlock, List.any_eq_true]
    constructor
    · rintro ⟨m, hm, hscan⟩
      obtain ⟨pre, ws, rest, hs, hcond, hne, hall⟩ :=
        (methodScan_iff m content true).mp hscan
      refine ⟨m, hm, pre, ws, rest, by simpa using hs, ?_, hne, hall⟩
      rcases hcond with ⟨hp, -⟩ | hp
      · exact Or.inl hp
      · exact Or.inr hp
    · rintro ⟨m, hm, pre, ws, rest, hs, hcond, hne, hall⟩
      refine ⟨m, hm, (methodScan_iff m content true).mpr
        ⟨pre, ws, rest, by simpa using hs, ?_, hne, hall⟩⟩
      rcases hcond with hp | hp
      · exact Or.inl ⟨hp, rfl⟩
      · exact Or.inr hp
  · intro fs
    induction fs with
    | nil => rfl
    | cons f fs ih =>
        rw [Bruno.count_requests_in_directory, List.filter_cons, ih]
        by_cases h1 : pathSuffix f.fname = S ".bru" <;>
          by_cases h2 : Bruno.is_marker_name f.fname <;>
          by_cases h3 : Bruno.hasMethodBlock f.content <;>
          simp [h1, h2, h3, Bruno.parse_bru_file] <;> omega

/-- `count_all_requests_list` is the sum of `count_all_requests`. -/
theorem count_all_requests_list_eq_sum :
    ∀ ds, Bruno.count_all_requests_list ds = (ds.map Bruno.count_all_requests).sum := by
  intro ds
  induction ds with
  | nil => rfl
  | cons d ds ih => rw [Bruno.count_all_requests_list, List.map_cons, List.sum_cons, ih]

/-- Members of an `allFoldersList` list are folders with all-folder
subtrees. -/
theorem allFoldersList_mem :
    ∀ ds, allFoldersList ds = true →
      ∀ c ∈ ds, Bruno.is_folder c = true ∧ allFolders c = true := by
  intro ds
  induction ds with
  | nil => intro _ c hc; exact absurd hc (by simp)
  | cons d ds ih =>
      intro h c hc
      rw [allFoldersList, Bool.and_eq_true, Bool.and_eq_true] at h
      rcases List.mem_cons.mp hc with h1 | h1
      · exact h1 ▸ ⟨h.1.1, h.1.2⟩
      · exact ih h.2 c h1

/-- Under the all-folders proviso, `count_all_requests` computes exactly
the total the parser stores on a folder node. -/
theorem count_all_requests_eq_total (d : BruDir) (h : allFolders d = true) :
    Bruno.count_all_requests d = Spec.bru_total_request d := by
  rcases d with ⟨nm, fs, ds⟩
  rw [allFolders] at h
  have hds : ds.filter (fun c => Bruno.is_folder c) = ds :=
    List.filter_eq_self.mpr (fun c hc => (allFoldersList_mem ds h c hc).1)
  rw [Bruno.count_all_requests, Spec.bru_total_request]
  simp only [BruDir.files, BruDir.subdirs, hds]

/-- The Postman request-count aggregation law: the recursive count is the
direct count plus the recursive counts of the child folders' item
lists. -/
theorem postman_request_law (items : List PmItem) :
    Postman.count_requests items =
      Spec.direct_request_count_pm items +
        ((Spec.folder_subs items).map Postman.count_requests).sum := by
  induction items with
  | nil =>
      simp [Postman.count_requests, Spec.direct_request_count_pm, Spec.folder_subs]
  | cons i rest ih =>
      rcases i with ⟨n, req, sub?⟩
      cases req <;> rcases sub? with _ | sub <;>
        simp [Postman.count_requests, Spec.direct_request_count_pm,
          Spec.folder_subs, List.countP_cons, PmItem.hasRequest, ih] <;> omega

/-- The Postman folder-count aggregation law. -/
theorem postman_folder_law (items : List PmItem) :
    Postman.count_folders items =
      (Spec.folder_subs items).length +
        ((Spec.folder_subs items).map Postman.count_folders).sum := by
  induction items with
  | nil => simp [Postman.count_folders, Spec.folder_subs]
  | cons i rest ih =>
      rcases i with ⟨n, req, sub?⟩
      cases req <;> rcases sub? with _ | sub <;>
        simp [Postman.count_folders, Spec.folder_subs, ih] <;> omega

/-- C1 (amended): the aggregation law holds for every node of the Postman
parser, for both request and folder counts (every folder node stores
`count_requests`/`count_folders` of its subtree, third conjunct); for
the Bruno parser the stored total request count of a folder obeys the
law provided every subdirectory, recursively, carries a `folder.bru`
marker (fourth conjunct).  The folder-count law fails for Bruno output:
see the counterexample. -/
theorem C1_aggregation_laws :
    (∀ items, Postman.count_requests items =
      Spec.direct_request_count_pm items +
        ((Spec.folder_subs items).map Postman.count_requests).sum) ∧
    (∀ items, Postman.count_folders items =
      (Spec.folder_subs items).length +
        ((Spec.folder_subs items).map Postman.count_folders).sum) ∧
    (∀ nm sub rest pp, ∃ tl,
      Postman.get_folder_structure (PmItem.mk nm false (some sub) :: rest) pp =
        { name := nm.getD (S "Unnamed"),
          path := if pp = [] then nm.getD (S "Unnamed")
            else pp ++ S "/" ++ nm.getD (S "Unnamed"),
          request_count := Postman.count_requests sub,
          folder_count := Postman.count_folders sub } :: tl) ∧
    (∀ d : BruDir, allFolders d = true →
      Spec.bru_total_request d = Bruno.count_requests_in_directory d.files +
        ((d.subdirs.filter (fun c => Bruno.is_folder c)).map
          Spec.bru_total_request).sum) := by
  refine ⟨postman_request_law, postman_folder_law, ?_, ?_⟩
  · intro nm sub rest pp
    exact ⟨_, by rw [Postman.get_folder_structure]⟩
  · intro d h
    rcases hd : d with ⟨nm, fs, ds⟩
    rw [hd] at h
    rw [allFolders] at h
    have hds : ds.filter (fun c => Bruno.is_folder c) = ds :=
      List.filter_eq_self.mpr (fun c hc => (allFoldersList_mem ds h c hc).1)
    rw [Spec.bru_total_request]
    simp only [BruDir.files, BruDir.subdirs, hds]
    congr 1
    rw [count_all_requests_list_eq_sum]
    exact (List.map_congr_left (fun c hc =>
      count_all_requests_eq_total c (allFoldersList_mem ds h c hc).2)).symm ▸ rfl

/-- Witness for C1's Bruno conjunct on the concrete all-folders chain. -/
theorem C1_aggregation_laws_witness :
    Spec.bru_total_request cex1A =
      Bruno.count_requests_in_directory cex1A.files +
        ((cex1A.subdirs.filter (fun c => Bruno.is_folder c)).map
          Spec.bru_total_request).sum :=
  C1_aggregation_laws.2.2.2 cex1A (by decide)

/-- Counterexample to C1 as stated: on the chain collection `C` ⊃ folder
`A` ⊃ folder `B` ⊃ folder `Cc`, the collection node's `folder_count` is
the recursive total 3, its child folder node `A` records `folder_count`
1 (the direct subfolder count, not a recursive total), and the
collection directory has 1 direct folder — so the folder-count
aggregation law `total = direct + Σ child totals` reads `3 = 1 + 1`,
which is false. -/
theorem C1_counterexample :
    (Bruno.get_collection_structure cex1Ws).map (fun c => c.folder_count) = [3] ∧
    (Bruno.get_collection_structure cex1Ws).map
      (fun c => c.folders.map (fun f => f.folder_count)) = [[1, 1, 0]] ∧
    Bruno.count_folders_in_directory cex1Col = 1 ∧
    (3 : Nat) ≠ 1 + 1 := by
  refine ⟨?_, ?_, by decide, by decide⟩ <;>
    simp [Bruno.get_collection_structure, cex1Ws, cex1Col, cex1A, cex1B, cex1Cc,
      Bruno.collection_structure_list, Bruno.get_folder_structure,
      Bruno.folder_structure_list, Bruno.count_all_folders,
      Bruno.count_all_folders_list] <;> decide

/-- A name built by appending `.json` matches the `*.json` glob. -/
theorem endsWith_append (suf x : Str) : endsWith suf (x ++ suf) = true := by
  rw [endsWith, List.isSuffixOf_iff_suffix]
  exact ⟨x, rfl⟩

/-- The collection-loading loop on synthetic files yields one node per
collection. -/
theorem loop_src_files (colPath : Str) :
    ∀ cols : List (Str × List PmItem),
      Postman.collection_structure_loop colPath (cols.map Mirror.srcFile) =
      .ok (cols.map (Mirror.pmNode colPath)) := by
  intro cols
  induction cols with
  | nil => rfl
  | cons c cs ih =>
      rw [List.map_cons, Postman.collection_structure_loop, List.map_cons]
      simp only [ih]
      rfl

/-- The Postman parser's summary of the synthetic source workspace. -/
theorem src_summary (p : Str) (cols : List (Str × List PmItem)) :
    Postman.get_workspace_summary (Mirror.srcWorkspace p cols) =
      .ok ⟨p, cols.map (Mirror.pmNode (p ++ S "/collections")), [], none⟩ := by
  have hfil : (cols.map Mirror.srcFile).filter
      (fun f => endsWith (S ".json") f.filename) = cols.map Mirror.srcFile := by
    apply List.filter_eq_self.mpr
    intro f hf
    obtain ⟨c, -, rfl⟩ := List.mem_map.mp hf
    exact endsWith_append _ _
  have hc : Postman.get_collection_structure (Mirror.srcWorkspace p cols) =
      .ok (cols.map (Mirror.pmNode (p ++ S "/collections"))) := by
    rw [Postman.get_collection_structure]
    show Postman.collection_structure_loop _ (List.filter _ (List.map _ cols)) = _
    rw [hfil, loop_src_files]
    rfl
  rw [Postman.get_workspace_summary, hc]
  rfl

/-- A mirrored collection directory carries its `collection.bru` marker. -/
theorem is_collection_root_mirror (nm : Str) (its : List PmItem) :
    Bruno.is_collection_root (Mirror.mirrorCollection nm its) = true := by
  simp [Bruno.is_collection_root, Mirror.mirrorCollection, BruDir.files]

/-- The Bruno parser's summary of the mirrored workspace. -/
theorem mirror_summary (q : Str) (cols : List (Str × List PmItem)) :
    Bruno.get_workspace_summary (Mirror.mirrorWorkspace q cols) =
      ⟨q, cols.map (Mirror.bruNode (q ++ S "/collections")), []⟩ := by
  have hc : ∀ cs : List (Str × List PmItem),
      Bruno.collection_structure_list
        (cs.map (fun c => Mirror.mirrorCollection c.1 c.2)) (q ++ S "/collections") =
      cs.map (Mirror.bruNode (q ++ S "/collections")) := by
    intro cs
    induction cs with
    | nil => rfl
    | cons c cs ih =>
        rw [List.map_cons, Bruno.collection_structure_list, ih,
          is_collection_root_mirror, List.map_cons]
        rfl
  have h1 : Bruno.get_collection_structure (Mirror.mirrorWorkspace q cols) =
      cols.map (Mirror.bruNode (q ++ S "/collections")) := by
    rw [Bruno.get_collection_structure]
    exact hc cols
  have h2 : Bruno.get_environment_variables (Mirror.mirrorWorkspace q cols) = [] := rfl
  rw [Bruno.get_workspace_summary, h1, h2]
  rfl

/-- Appending `.bru` to a nonempty name yields path suffix `.bru`. -/
theorem pathSuffix_append_bru (l : Str) (h : l ≠ []) :
    pathSuffix (l ++ S ".bru") = S ".bru" := by
  have hrev : (l ++ S ".bru").reverse = 'u' :: 'r' :: 'b' :: '.' :: l.reverse := by
    rw [List.reverse_append]
    rfl
  have hk : ((l ++ S ".bru").reverse.takeWhile (fun c => c ≠ '.')).length = 3 := by
    rw [hrev]
    rfl
  have hlen : (l ++ S ".bru").length = l.length + 4 := by
    simp [S]
  have hl : 0 < l.length := List.length_pos.mpr h
  rw [pathSuffix]
  simp only [hk, hlen]
  rw [if_pos (by omega)]
  have : l.length + 4 - 1 - 3 = l.length := by omega
  rw [this, List.drop_left]

/-- A marker file contributes nothing to the request count. -/
theorem crid_cons_marker (f : BruFile) (fs : List BruFile)
    (h : Bruno.is_marker_name f.fname = true) :
    Bruno.count_requests_in_directory (f :: fs) =
      Bruno.count_requests_in_directory fs := by
  rw [Bruno.count_requests_in_directory]
  rw [if_neg (by simp [h])]
  omega

/-- A mirrored request filename is not a marker name. -/
theorem reqName_not_marker (i : Nat) :
    Bruno.is_marker_name (Mirror.reqName i) = false := rfl

/-- The mirrored request content declares a `get` block. -/
theorem reqContent_is_request : Bruno.hasMethodBlock Mirror.reqContent = true := by
  decide

/-- The request files of a mirrored directory are counted exactly as the
direct request items. -/
theorem crid_mirrorFiles :
    ∀ (its : List PmItem) (i : Nat),
      Bruno.count_requests_in_directory (Mirror.mirrorFiles its i) =
        its.countP (fun x => x.hasRequest) := by
  intro its
  induction its with
  | nil => intro i; rfl
  | cons x rest ih =>
      intro i
      rcases x with ⟨nm, req, sub?⟩
      cases req
      · rw [Mirror.mirrorFiles, ih, List.countP_cons]
        simp [PmItem.hasRequest]
      · rw [Mirror.mirrorFiles, Bruno.count_requests_in_directory, ih,
          List.countP_cons]
        rw [if_pos ?_]
        · simp [PmItem.hasRequest]
          omega
        · refine ⟨?_, reqName_not_marker i, ?_⟩
          · show pathSuffix (('r' :: Mirror.unar i) ++ S ".bru") = S ".bru"
            exact pathSuffix_append_bru _ (by simp)
          · exact reqContent_is_request

/-- Every mirrored directory carries a `folder.bru` marker. -/
theorem mirrorDirs_is_folder :
    ∀ its, ∀ d ∈ Mirror.mirrorDirs its, Bruno.is_folder d = true := by
  intro its
  induction its with
  | nil =>
      intro d hd
      simp [Mirror.mirrorDirs] at hd
  | cons x rest ih =>
      intro d hd
      rcases x with ⟨nm, req, sub?⟩
      cases req <;> rcases sub? with _ | sub
      · rw [Mirror.mirrorDirs] at hd
        exact ih d hd
      · rw [Mirror.mirrorDirs] at hd
        rcases List.mem_cons.mp hd with h | h
        · subst h
          simp [Bruno.is_folder, BruDir.files]
        · exact ih d h
      · rw [Mirror.mirrorDirs] at hd
        exact ih d hd
      · rw [Mirror.mirrorDirs] at hd
        exact ih d hd

/-- `count_all_folders_list` is the sum of `count_all_folders`. -/
theorem count_all_folders_list_eq_sum :
    ∀ ds, Bruno.count_all_folders_list ds = (ds.map Bruno.count_all_folders).sum := by
  intro ds
  induction ds with
  | nil => rfl
  | cons d ds ih => rw [Bruno.count_all_folders_list, List.map_cons, List.sum_cons, ih]

/-- Counts of the mirrored subdirectories agree with the source subtree
counts: total requests, total folders, and the number of child
folders. -/
theorem mirror_counts :
    ∀ (n : Nat) (its : List PmItem), sizeOf its ≤ n →
      Bruno.count_all_requests_list (Mirror.mirrorDirs its) =
        ((Spec.folder_subs its).map Postman.count_requests).sum ∧
      Bruno.count_all_folders_list (Mirror.mirrorDirs its) =
        ((Spec.folder_subs its).map Postman.count_folders).sum ∧
      (Mirror.mirrorDirs its).length = (Spec.folder_subs its).length := by
  intro n
  induction n using Nat.strong_induction_on with
  | _ n ih =>
    intro its hsz
    match its with
    | [] =>
        refine ⟨?_, ?_, ?_⟩ <;>
          simp [Mirror.mirrorDirs, Spec.folder_subs,
            Bruno.count_all_requests_list, Bruno.count_all_folders_list]
    | PmItem.mk nm false (some sub) :: rest =>
        have hb : 1 ≤ n := by
          simp only [List.cons.sizeOf_spec] at hsz
          omega
        have hsub : sizeOf sub < n := by
          simp only [List.cons.sizeOf_spec, PmItem.mk.sizeOf_spec,
            Option.some.sizeOf_spec] at hsz
          omega
        have hrest : sizeOf rest < n := by
          simp only [List.cons.sizeOf_spec, PmItem.mk.sizeOf_spec,
            Option.some.sizeOf_spec] at hsz
          omega
        obtain ⟨ihs1, ihs2, ihs3⟩ := ih (sizeOf sub) hsub sub le_rfl
        obtain ⟨ihr1, ihr2, ihr3⟩ := ih (sizeOf rest) hrest rest le_rfl
        have hfil : (Mirror.mirrorDirs sub).filter (fun c => Bruno.is_folder c) =
            Mirror.mirrorDirs sub :=
          List.filter_eq_self.mpr (fun c hc => mirrorDirs_is_folder sub c hc)
        refine ⟨?_, ?_, ?_⟩
        · rw [Mirror.mirrorDirs, Bruno.count_all_requests_list,
            Spec.folder_subs, List.map_cons, List.sum_cons,
            Bruno.count_all_requests,
            crid_cons_marker
              { fname := S "folder.bru",
                content := Mirror.folderContent (Mirror.resolvedName nm) } _ rfl,
            crid_mirrorFiles, ihs1, ihr1, postman_request_law sub]
          rfl
        · rw [Mirror.mirrorDirs, Bruno.count_all_folders_list,
            Spec.folder_subs, List.map_cons, List.sum_cons,
            Bruno.count_all_folders, ihr2]
          show ((Mirror.mirrorDirs sub).filter (fun c => Bruno.is_folder c)).length +
            Bruno.count_all_folders_list (Mirror.mirrorDirs sub) + _ = _
          rw [hfil, ihs2, ihs3, postman_folder_law sub]
        · rw [Mirror.mirrorDirs, Spec.folder_subs]
          simp [ihr3]
    | PmItem.mk nm false none :: rest =>
        have hrest : sizeOf rest < n := by
          simp only [List.cons.sizeOf_spec] at hsz
          omega
        obtain ⟨h1, h2, h3⟩ := ih (sizeOf rest) hrest rest le_rfl
        rw [Mirror.mirrorDirs, Spec.folder_subs]
        exact ⟨h1, h2, h3⟩
    | PmItem.mk nm true sub? :: rest =>
        have hrest : sizeOf rest < n := by
          simp only [List.cons.sizeOf_spec] at hsz
          omega
        obtain ⟨h1, h2, h3⟩ := ih (sizeOf rest) hrest rest le_rfl
        rw [Mirror.mirrorDirs, Spec.folder_subs]
        exact ⟨h1, h2, h3⟩

/-- The mirrored collection directory holds exactly the source
collection's recursive request count. -/
theorem car_mirrorCollection (nm : Str) (its : List PmItem) :
    Bruno.count_all_requests (Mirror.mirrorCollection nm its) =
      Postman.count_requests its := by
  rw [Mirror.mirrorCollection, Bruno.count_all_requests,
    crid_cons_marker { fname := S "collection.bru", content := [] } _ rfl,
    crid_mirrorFiles,
    (mirror_counts (sizeOf its) its le_rfl).1, postman_request_law its]
  rfl

/-- The mirrored collection directory holds exactly the source
collection's recursive folder count. -/
theorem caf_mirrorCollection (nm : Str) (its : List PmItem) :
    Bruno.count_all_folders (Mirror.mirrorCollection nm its) =
      Postman.count_folders its := by
  have hfil : (Mirror.mirrorDirs its).filter (fun c => Bruno.is_folder c) =
      Mirror.mirrorDirs its :=
    List.filter_eq_self.mpr (fun c hc => mirrorDirs_is_folder its c hc)
  rw [Mirror.mirrorCollection, Bruno.count_all_folders]
  show ((Mirror.mirrorDirs its).filter (fun c => Bruno.is_folder c)).length +
    Bruno.count_all_folders_list (Mirror.mirrorDirs its) = _
  rw [hfil, (mirror_counts (sizeOf its) its le_rfl).2.1,
    (mirror_counts (sizeOf its) its le_rfl).2.2, postman_folder_law its]

/-- `takeWhile` passes over a block of satisfying elements. -/
theorem takeWhile_append_of_all {α : Type} (p : α → Bool) :
    ∀ (l t : List α), (∀ c ∈ l, p c = true) →
      (l ++ t).takeWhile p = l ++ t.takeWhile p := by
  intro l t h
  induction l with
  | nil => rfl
  | cons a l ih =>
      rw [List.cons_append, List.takeWhile_cons, h a (by simp), List.cons_append]
      rw [ih (fun c hc => h c (by simp [hc]))]
      rw [if_pos rfl]

/-- The head of a `dropWhile` residue fails the predicate. -/
theorem dropWhile_head_false {α : Type} (p : α → Bool) :
    ∀ (l : List α) c r, l.dropWhile p = c :: r → p c = false := by
  intro l
  induction l with
  | nil => intro c r h; exact absurd h (by simp)
  | cons a l ih =>
      intro c r h
      rw [List.dropWhile_cons] at h
      by_cases ha : p a
      · rw [if_pos ha] at h
        exact ih c r h
      · rw [if_neg ha] at h
        injection h with h1 h2
        subst h1
        exact Bool.not_eq_true _ ▸ (by simpa using ha)

/-- A list whose `dropWhile` residue is empty satisfies the predicate
everywhere. -/
theorem dropWhile_nil_all {α : Type} (p : α → Bool) :
    ∀ l : List α, l.dropWhile p = [] → ∀ c ∈ l, p c = true := by
  intro l
  induction l with
  | nil => intro _ c hc; exact absurd hc (by simp)
  | cons a l ih =>
      intro h c hc
      rw [List.dropWhile_cons] at h
      by_cases ha : p a
      · rcases List.mem_cons.mp hc with h1 | h1
        · exact h1 ▸ ha
        · rw [if_pos ha] at h
          exact ih h c h1
      · rw [if_neg ha] at h
        exact absurd h (by simp)

/-- `dropWhile` is idempotent. -/
theorem dropWhile_dropWhile {α : Type} (p : α → Bool) (l : List α) :
    (l.dropWhile p).dropWhile p = l.dropWhile p := by
  rcases h : l.dropWhile p with _ | ⟨c, r⟩
  · rfl
  · rw [List.dropWhile_cons, if_neg (by simp [dropWhile_head_false p l c r h])]

/-- Stripping ignores leading whitespace already dropped. -/
theorem pyStrip_dropWhile (l : Str) :
    pyStrip (l.dropWhile isPySpace) = pyStrip l := by
  unfold pyStrip
  rw [dropWhile_dropWhile]

/-- The name the Bruno parser extracts from a mirrored `folder.bru` is the
stripped declared name (for names free of newlines and closing
braces). -/
theorem parse_folderContent_name (nm : Str)
    (h1 : ∀ c ∈ nm, ¬ c = '\n') (h2 : ∀ c ∈ nm, ¬ c = rbrace) :
    (Bruno.parse_bru_file (S "folder.bru") (Mirror.folderContent nm)).name =
      pyStrip nm := by
  have hany : (S "\nname: " ++ (nm ++ ['\n', rbrace])).any (fun c => c = rbrace) = true := by
    rw [List.any_append, List.any_append]
    simp
  have htake : (S "\nname: " ++ (nm ++ ['\n', rbrace])).takeWhile (fun c => c ≠ rbrace) =
      S "\nname: " ++ (nm ++ ['\n']) := by
    rw [takeWhile_append_of_all _ _ _ (by decide)]
    congr 1
    rw [takeWhile_append_of_all _ _ _ (fun c hc => by simpa using h2 c hc)]
    rfl
  have hA : Bruno.metaBodyAt (Mirror.folderContent nm) =
      some (S "\nname: " ++ (nm ++ ['\n'])) := by
    rw [show Bruno.metaBodyAt (Mirror.folderContent nm) =
        (if (S "\nname: " ++ (nm ++ ['\n', rbrace])).any (fun c => c = rbrace) = true
         then some ((S "\nname: " ++ (nm ++ ['\n', rbrace])).takeWhile
           (fun c => c ≠ rbrace))
         else none) from rfl]
    rw [if_pos hany, htake]
  have hfind : Bruno.findMetaBody (Mirror.folderContent nm) =
      some (S "\nname: " ++ (nm ++ ['\n'])) := by
    rw [show Bruno.findMetaBody (Mirror.folderContent nm) =
        (match Bruno.metaBodyAt (Mirror.folderContent nm) with
         | some b => some b
         | none => Bruno.findMetaBody (Mirror.folderContent nm).tail) from rfl]
    rw [hA]
  have hcap : Bruno.captureAfterKey (' ' :: (nm ++ ['\n'])) = some (pyStrip nm) := by
    rcases hnmd : nm.dropWhile isPySpace with _ | ⟨c0, nr⟩
    · -- the name is all whitespace: the greedy star backtracks, empty capture
      have hall : ∀ c ∈ nm, isPySpace c = true := dropWhile_nil_all _ nm hnmd
      have htail : (' ' :: (nm ++ ['\n'])).dropWhile isPySpace = [] := by
        rw [List.dropWhile_cons, if_pos (by decide),
          dropWhile_append_of_all _ _ _ hall]
        rfl
      have hstrip : pyStrip nm = [] := by
        unfold pyStrip
        rw [hnmd]
        rfl
      simp only [Bruno.captureAfterKey]
      rw [htail]
      rw [if_neg (by simp), if_pos, hstrip]
      rw [List.takeWhile_cons, if_pos (by decide)]
      simp
    · -- a non-whitespace character exists
      have hc0 : isPySpace c0 = false := dropWhile_head_false _ nm c0 nr hnmd
      have hw : nm.takeWhile isPySpace ++ (c0 :: nr) = nm := by
        conv_rhs => rw [← List.takeWhile_append_dropWhile (p := isPySpace) (l := nm)]
        rw [hnmd]
      have hmemnm : ∀ c ∈ c0 :: nr, c ∈ nm := by
        intro c hc
        rw [← hw]
        exact List.mem_append_right _ hc
      have htail : (' ' :: (nm ++ ['\n'])).dropWhile isPySpace =
          c0 :: (nr ++ ['\n']) := by
        rw [List.dropWhile_cons, if_pos (by decide)]
        conv_lhs => rw [← hw]
        rw [List.append_assoc,
          dropWhile_append_of_all _ _ _ (fun c hc => List.mem_takeWhile_imp hc),
          List.cons_append, List.dropWhile_cons, if_neg (by simp [hc0])]
      have htk : (c0 :: (nr ++ ['\n'])).takeWhile (fun c => c ≠ '\n') = c0 :: nr := by
        rw [show c0 :: (nr ++ ['\n']) = (c0 :: nr) ++ ['\n'] from rfl]
        rw [takeWhile_append_of_all _ _ _
          (fun c hc => by simpa using h1 c (hmemnm c hc))]
        simp
      simp only [Bruno.captureAfterKey]
      rw [htail]
      rw [if_pos (by simp), htk, ← pyStrip_dropWhile nm, hnmd]
  have hsearch : Bruno.searchKey (S "name:") (S "\nname: " ++ (nm ++ ['\n'])) =
      some (pyStrip nm) := by
    rw [show Bruno.searchKey (S "name:") (S "\nname: " ++ (nm ++ ['\n'])) =
        Bruno.searchKey (S "name:") (S "name: " ++ (nm ++ ['\n'])) from rfl]
    rw [show Bruno.searchKey (S "name:") (S "name: " ++ (nm ++ ['\n'])) =
        (match Bruno.captureAfterKey (' ' :: (nm ++ ['\n'])) with
         | some v => some v
         | none => Bruno.searchKey (S "name:") (S "ame: " ++ (nm ++ ['\n'])))
      from rfl]
    rw [hcap]
  show (match Bruno.findMetaBody (Mirror.folderContent nm) with
        | some body => Bruno.searchKey (S "name:") body
        | none => none).getD (pathStem (S "folder.bru")) = pyStrip nm
  rw [hfind]
  show (Bruno.searchKey (S "name:") (S "\nname: " ++ (nm ++ ['\n']))).getD _ = _
  rw [hsearch]
  rfl

/-- Unpacking `tameName`. -/
theorem tameName_spec (n : Str) (h : Mirror.tameName n = true) :
    (∀ c ∈ n, ¬ c = '\n') ∧ (∀ c ∈ n, ¬ c = rbrace) ∧ pyStrip n = n := by
  rw [Mirror.tameName, Bool.and_eq_true, List.all_eq_true] at h
  obtain ⟨hall, hstrip⟩ := h
  refine ⟨fun c hc => ?_, fun c hc => ?_, eq_of_beq hstrip⟩
  · have := hall c hc
    rw [Bool.and_eq_true] at this
    simpa using this.1
  · have := hall c hc
    rw [Bool.and_eq_true] at this
    simpa using this.2

/-- The flattened folder lists of a source tree and of its mirror agree
pointwise on names and total request counts. -/
theorem mirror_gfs :
    ∀ (n : Nat) (its : List PmItem), sizeOf its ≤ n → Mirror.tameItems its = true →
    ∀ fsPath pPath qPath,
      List.Forall₂ (fun (pf : Postman.FolderNode) (bf : Bruno.FolderNode) =>
          bf.name = pf.name ∧ bf.request_count = pf.request_count)
        (Postman.get_folder_structure its pPath)
        (Bruno.folder_structure_list (Mirror.mirrorDirs its) fsPath qPath) := by
  intro n
  induction n using Nat.strong_induction_on with
  | _ n ih =>
    intro its hsz htame fsPath pPath qPath
    match its with
    | [] =>
        rw [Postman.get_folder_structure, Mirror.mirrorDirs,
          Bruno.folder_structure_list]
        exact List.Forall₂.nil
    | PmItem.mk nm false (some sub) :: rest =>
        have hsub : sizeOf sub < n := by
          simp only [List.cons.sizeOf_spec, PmItem.mk.sizeOf_spec,
            Option.some.sizeOf_spec] at hsz
          omega
        have hrest : sizeOf rest < n := by
          simp only [List.cons.sizeOf_spec, PmItem.mk.sizeOf_spec,
            Option.some.sizeOf_spec] at hsz
          omega
        rw [Mirror.tameItems, Bool.and_eq_true, Bool.and_eq_true] at htame
        obtain ⟨⟨htn, hts⟩, htr⟩ := htame
        obtain ⟨hn1, hn2, hn3⟩ := tameName_spec _ htn
        have hfil : (Mirror.mirrorDirs sub).filter (fun c => Bruno.is_folder c) =
            Mirror.mirrorDirs sub :=
          List.filter_eq_self.mpr (fun c hc => mirrorDirs_is_folder sub c hc)
        rw [Postman.get_folder_structure, Mirror.mirrorDirs,
          Bruno.folder_structure_list]
        refine List.Forall₂.cons ⟨?_, ?_⟩ ?_
        · show (Bruno.parse_bru_file (S "folder.bru")
              (Mirror.folderContent (Mirror.resolvedName nm))).name =
            Mirror.resolvedName nm
          rw [parse_folderContent_name _ hn1 hn2, hn3]
        · show Bruno.count_requests_in_directory
              ({ fname := S "folder.bru",
                 content := Mirror.folderContent (Mirror.resolvedName nm) } ::
                Mirror.mirrorFiles sub 0) +
            Bruno.count_all_requests_list
              ((Mirror.mirrorDirs sub).filter (fun c => Bruno.is_folder c)) =
            Postman.count_requests sub
          rw [crid_cons_marker
              { fname := S "folder.bru",
                content := Mirror.folderContent (Mirror.resolvedName nm) } _ rfl,
            crid_mirrorFiles, hfil,
            (mirror_counts (sizeOf sub) sub le_rfl).1, postman_request_law sub]
          rfl
        · exact List.rel_append
            (ih (sizeOf sub) hsub sub le_rfl hts _ _ _)
            (ih (sizeOf rest) hrest rest le_rfl htr _ _ _)
    | PmItem.mk nm false none :: rest =>
        have hrest : sizeOf rest < n := by
          simp only [List.cons.sizeOf_spec] at hsz
          omega
        rw [Mirror.tameItems] at htame
        rw [Postman.get_folder_structure, Mirror.mirrorDirs]
        exact ih (sizeOf rest) hrest rest le_rfl htame _ _ _
    | PmItem.mk nm true sub? :: rest =>
        have hrest : sizeOf rest < n := by
          simp only [List.cons.sizeOf_spec] at hsz
          omega
        rw [Mirror.tameItems] at htame
        rw [Postman.get_folder_structure, Mirror.mirrorDirs]
        exact ih (sizeOf rest) hrest rest le_rfl htame _ _ _

/-- Pointwise relations on parallel maps. -/
theorem forall₂_map_map {α β γ : Type} {R : β → γ → Prop} (f : α → β) (g : α → γ) :
    ∀ l : List α, (∀ c ∈ l, R (f c) (g c)) → List.Forall₂ R (l.map f) (l.map g) := by
  intro l h
  induction l with
  | nil => exact List.Forall₂.nil
  | cons c cs ih =>
      exact List.Forall₂.cons (h c (by simp)) (ih (fun d hd => h d (by simp [hd])))

/-- With unique normalized source names and pointwise name/count
agreement, the first normalized-name match of each source folder has the
source folder's request count. -/
theorem find_folder_aligned
    {pfs : List Postman.FolderNode} {bfs : List Bruno.FolderNode}
    (hrel : List.Forall₂ (fun pf bf => bf.name = pf.name ∧
      bf.request_count = pf.request_count) pfs bfs)
    (hnd : (pfs.map (fun f => normalize_name f.name)).Nodup) :
    ∀ pf ∈ pfs, ∃ bf, Validator.find_matching_bruno_folder pf bfs = some bf ∧
      pf.request_count = bf.request_count := by
  induction hrel with
  | nil => intro pf hpf; exact absurd hpf (by simp)
  | @cons p b ps bs hpb hrel ih =>
      intro pf hpf
      rw [List.map_cons, List.nodup_cons] at hnd
      rcases List.mem_cons.mp hpf with h | h
      · subst h
        exact ⟨b, by rw [Validator.find_matching_bruno_folder, if_pos (by rw [hpb.1])],
          hpb.2.symm⟩
      · have hne : ¬ normalize_name pf.name = normalize_name b.name := by
          rw [hpb.1]
          intro he
          exact hnd.1 (he ▸ List.mem_map_of_mem (fun f => normalize_name f.name) h)
        obtain ⟨bf, hfind, hcnt⟩ := ih hnd.2 pf h
        exact ⟨bf, by rw [Validator.find_matching_bruno_folder, if_neg hne]; exact hfind,
          hcnt⟩

/-- Collection-level analogue of `find_folder_aligned`, carrying the
request count, folder count and the folder-list relation of the matched
pair. -/
theorem find_collection_aligned
    {pcs : List Postman.ColNode} {bcs : List Bruno.ColNode}
    (hrel : List.Forall₂ (fun pc bc => bc.name = pc.name ∧
      bc.request_count = pc.request_count ∧ bc.folder_count = pc.folder_count ∧
      List.Forall₂ (fun pf bf => bf.name = pf.name ∧
        bf.request_count = pf.request_count) pc.folders bc.folders) pcs bcs)
    (hnd : (pcs.map (fun c => normalize_name c.name)).Nodup) :
    ∀ pc ∈ pcs, ∃ bc, Validator.find_matching_bruno_collection pc bcs = some bc ∧
      pc.request_count = bc.request_count ∧ pc.folder_count = bc.folder_count ∧
      List.Forall₂ (fun pf bf => bf.name = pf.name ∧
        bf.request_count = pf.request_count) pc.folders bc.folders := by
  induction hrel with
  | nil => intro pc hpc; exact absurd hpc (by simp)
  | @cons p b ps bs hpb hrel ih =>
      intro pc hpc
      rw [List.map_cons, List.nodup_cons] at hnd
      rcases List.mem_cons.mp hpc with h | h
      · subst h
        exact ⟨b,
          by rw [Validator.find_matching_bruno_collection, if_pos (by rw [hpb.1])],
          hpb.2.1.symm, hpb.2.2.1.symm, hpb.2.2.2⟩
      · have hne : ¬ normalize_name pc.name = normalize_name b.name := by
          rw [hpb.1]
          intro he
          exact hnd.1 (he ▸ List.mem_map_of_mem (fun c => normalize_name c.name) h)
        obtain ⟨bc, hfind, hp⟩ := ih hnd.2 pc h
        exact ⟨bc,
          by rw [Validator.find_matching_bruno_collection, if_neg hne]; exact hfind, hp⟩

/-- When every source folder finds a count-matching target folder, the
folder loop emits only `Pass`. -/
theorem validate_folders_loop_pass (bfs : List Bruno.FolderNode) :
    ∀ pfs, (∀ pf ∈ pfs, ∃ bf,
        Validator.find_matching_bruno_folder pf bfs = some bf ∧
        pf.request_count = bf.request_count) →
      ∀ r ∈ Validator.validate_folders_loop bfs pfs,
        r.validation_status = S "Pass" := by
  intro pfs
  induction pfs with
  | nil => intro _ r hr; simp [Validator.validate_folders_loop] at hr
  | cons pf pfs ih =>
      intro h r hr
      rw [Validator.validate_folders_loop] at hr
      obtain ⟨bf, hfind, hcnt⟩ := h pf (by simp)
      rcases List.mem_cons.mp hr with h1 | h1
      · subst h1
        rw [hfind]
        show (if pf.request_count = bf.request_count then S "Pass" else S "Fail") =
          S "Pass"
        rw [if_pos hcnt]
      · exact ih (fun g hg => h g (by simp [hg])) r h1

/-- When every source collection finds a fully count-matching target
collection whose folder validation also passes, the collection loop
emits only `Pass`. -/
theorem validate_collections_loop_pass (bcs : List Bruno.ColNode) :
    ∀ pcs, (∀ pc ∈ pcs, ∃ bc,
        Validator.find_matching_bruno_collection pc bcs = some bc ∧
        pc.request_count = bc.request_count ∧
        pc.folder_count = bc.folder_count ∧
        (∀ r ∈ Validator.validate_folders pc bc,
          r.validation_status = S "Pass")) →
      ∀ r ∈ Validator.validate_collections_loop bcs pcs,
        r.validation_status = S "Pass" := by
  intro pcs
  induction pcs with
  | nil => intro _ r hr; simp [Validator.validate_collections_loop] at hr
  | cons pc pcs ih =>
      intro h r hr
      rw [Validator.validate_collections_loop] at hr
      obtain ⟨bc, hfind, hrc, hfc, hfold⟩ := h pc (by simp)
      rw [hfind] at hr
      rcases List.mem_append.mp hr with h1 | h1
      · rcases List.mem_cons.mp h1 with h2 | h2
        · subst h2
          show (if pc.request_count = bc.request_count then S "Pass" else S "Fail") =
            S "Pass"
          rw [if_pos hrc]
        · rcases List.mem_cons.mp h2 with h3 | h3
          · subst h3
            show (if pc.folder_count = bc.folder_count then S "Pass" else S "Fail") =
              S "Pass"
            rw [if_pos hfc]
          · exact hfold r h3
      · exact ih (fun g hg => h g (by simp [hg])) r h1

/-- C2 (amended): for a synthetic source tree whose collection names have
pairwise-distinct normalized forms, whose folder names are tame (no
newline, no closing brace, no surrounding whitespace) and
normalized-unique within each collection, validating the source against
its identically-shaped, identically-named on-disk mirror emits only
`Pass` records.  Without the normalized-uniqueness proviso the claim
fails: see the counterexample. -/
theorem C2_round_trip (p q : Str) (cols : List (Str × List PmItem))
    (h1 : (cols.map (fun c => normalize_name c.1)).Nodup)
    (h2 : ∀ c ∈ cols, Mirror.tameItems c.2 = true)
    (h3 : ∀ c ∈ cols, ((Postman.get_folder_structure c.2 []).map
        (fun f => normalize_name f.name)).Nodup) :
    ∀ recs, Validator.generate_validation_report (Mirror.srcWorkspace p cols)
        (Mirror.mirrorWorkspace q cols) = .ok recs →
      ∀ r ∈ recs, r.validation_status = S "Pass" := by
  intro recs hrecs r hr
  have hsum := src_summary p cols
  have hbsum := mirror_summary q cols
  unfold Validator.generate_validation_report at hrecs
  rw [hsum, hbsum] at hrecs
  have hrecs' : recs =
      Validator.validate_collections
        ⟨p, cols.map (Mirror.pmNode (p ++ S "/collections")), [], none⟩
        ⟨q, cols.map (Mirror.bruNode (q ++ S "/collections")), []⟩ ++
      Validator.validate_environments_core p q [] [] none := by
    injection hrecs with h
    exact h.symm
  subst hrecs'
  -- the collection-level Forall₂ between the two node lists
  have hrel : List.Forall₂ (fun pc bc => bc.name = pc.name ∧
      bc.request_count = pc.request_count ∧ bc.folder_count = pc.folder_count ∧
      List.Forall₂ (fun (pf : Postman.FolderNode) (bf : Bruno.FolderNode) =>
        bf.name = pf.name ∧ bf.request_count = pf.request_count)
        pc.folders bc.folders)
      (cols.map (Mirror.pmNode (p ++ S "/collections")))
      (cols.map (Mirror.bruNode (q ++ S "/collections"))) := by
    apply forall₂_map_map
    intro c hc
    refine ⟨rfl, ?_, ?_, ?_⟩
    · exact car_mirrorCollection c.1 c.2
    · exact caf_mirrorCollection c.1 c.2
    · show List.Forall₂ _ (Postman.get_folder_structure c.2 [])
        (Bruno.get_folder_structure (Mirror.mirrorCollection c.1 c.2) _ [])
      rw [Mirror.mirrorCollection, Bruno.get_folder_structure]
      exact mirror_gfs (sizeOf c.2) c.2 le_rfl (h2 c hc) _ _ _
  have hndc : ((cols.map (Mirror.pmNode (p ++ S "/collections"))).map
      (fun c => normalize_name c.name)).Nodup := by
    rw [List.map_map]
    exact h1
  rcases List.mem_append.mp hr with hcase | hcase
  · -- collection records
    rw [Validator.validate_collections] at hcase
    rcases List.mem_cons.mp hcase with h0 | h0
    · subst h0
      show (if (cols.map (Mirror.pmNode (p ++ S "/collections"))).length =
          (cols.map (Mirror.bruNode (q ++ S "/collections"))).length
        then S "Pass" else S "Fail") = S "Pass"
      rw [if_pos (by simp)]
    · refine validate_collections_loop_pass _ _ ?_ r h0
      intro pc hpc
      obtain ⟨bc, hfind, hrc, hfc, hfrel⟩ :=
        find_collection_aligned hrel hndc pc hpc
      refine ⟨bc, hfind, hrc, hfc, ?_⟩
      obtain ⟨c, hcin, rfl⟩ := List.mem_map.mp hpc
      intro r2 hr2
      refine validate_folders_loop_pass _ _ ?_ r2 hr2
      intro pf hpf
      exact find_folder_aligned hfrel (h3 c hcin) pf hpf
  · -- environment records: empty environments, no global variables
    rw [Validator.validate_environments_core] at hcase
    rcases List.mem_append.mp hcase with h0 | h0
    · rcases List.mem_cons.mp h0 with h1' | h1'
      · subst h1'
        show (if (0 : Nat) = 0 then S "Pass" else S "Fail") = S "Pass"
        rw [if_pos rfl]
      · simp [Validator.validate_environments_loop] at h1'
    · simp at h0

/-- Witness for C2 on the specification's round-trip scenario
(collection `User API`, 3 direct requests, sub-folder `Auth` with 2):
the full report of the source against its mirror contains no `Fail`. -/
theorem C2_round_trip_witness :
    ((Validator.generate_validation_report
        (Mirror.srcWorkspace (S "pw") c2wCols)
        (Mirror.mirrorWorkspace (S "bw") c2wCols)).toOption.getD []).all
      (fun r => r.validation_status == S "Pass") = true := by
  obtain ⟨recs, hok⟩ : ∃ recs, Validator.generate_validation_report
      (Mirror.srcWorkspace (S "pw") c2wCols)
      (Mirror.mirrorWorkspace (S "bw") c2wCols) = .ok recs := by
    unfold Validator.generate_validation_report
    rw [src_summary]
    exact ⟨_, rfl⟩
  have hpass := C2_round_trip (S "pw") (S "bw") c2wCols (by decide) ?ht ?hn recs hok
  case ht =>
    intro c hc
    rcases List.mem_singleton.mp hc with rfl
    simp [Mirror.tameItems, Mirror.tameName, Mirror.resolvedName]
    decide
  case hn =>
    intro c hc
    rcases List.mem_singleton.mp hc with rfl
    simp [Postman.get_folder_structure, Postman.count_requests,
      Postman.count_folders]
  rw [hok, List.all_eq_true]
  intro r hr
  have := hpass r (by simpa using hr)
  simp [this]

/-- Counterexample to C2 as stated: the source collection holds sibling
folders `A b` (1 request) and `ab` (0 requests) whose names normalize
identically; against its identically-shaped, identically-named mirror,
the first-match-wins pairing compares source `ab` with target `A b` and
the report contains exactly one `Fail` record. -/
theorem C2_counterexample :
    (Validator.generate_validation_report cex2Pm cex2Br).toOption.map
      (fun recs => recs.countP (fun r => r.validation_status == S "Fail")) =
      some 1 := by
  rw [show cex2Pm = Mirror.srcWorkspace (S "pw") cex2Cols from rfl,
    show cex2Br = Mirror.mirrorWorkspace (S "bw") cex2Cols from rfl]
  unfold Validator.generate_validation_report
  rw [src_summary, mirror_summary]
  simp [Mirror.pmNode, Mirror.bruNode, Mirror.srcFile, Postman.collection_node,
    cex2Cols, Postman.count_requests, Postman.count_folders,
    Postman.get_folder_structure, Mirror.mirrorCollection, Mirror.mirrorDirs,
    Mirror.mirrorFiles, Bruno.get_folder_structure, Bruno.folder_structure_list,
    Bruno.count_all_requests, Bruno.count_all_requests_list,
    Bruno.count_all_folders, Bruno.count_all_folders_list]
  decide
